import Mathlib

/-!
Shallow embedding of the Driver-Assignment repository (src/assignDriversToRides.js,
src/utils.js) and proofs about the claims of its specification.

Modelling conventions, used consistently below:

* JavaScript numbers are modelled as exact rationals (`ℚ`); float rounding is not
  modelled.  Quantities that the source only ever handles as whole numbers of
  minutes or seats are modelled as `ℤ` / `ℕ`.
* Clock-time strings `"HH:MM"` are modelled as their total number of minutes
  (`ℤ`).  Every helper of the source (`timeToMinutes`, `isTimeAfter`,
  `addMinutesToTime`, `getTimeDifferenceInMinutes`, `isTimeInRange`) parses the
  string into the pair (hours, minutes) and then works with `hours*60 + minutes`,
  and for well-formed zero-padded strings the source's lexicographic comparisons
  agree with comparisons of the total minutes, so this representation is faithful.
  `addMinutesToTime` re-renders hours past 24 (a time such as `"24:50"` is the
  integer 1490).
* Date strings `"YYYY-MM-DD"` are modelled as naturals; for the fixed-width format
  the source's `localeCompare` ordering coincides with the numeric ordering.
* The great-circle distance of `utils.haversineDistance` is floating-point
  trigonometry (`Math.sin`, `Math.cos`, `Math.atan2`); it has no exact executable
  counterpart here, so it is a parameter (`Oracle.haversine`), as is the external
  OSRM routing service (`Oracle.osrm`, a deterministic outcome per coordinate
  pair: a successful response carrying a route distance in meters, a well-formed
  response with no usable route, or a thrown error / timeout).  The engine only
  consumes the output values of both.
* The run-scoped `distanceCache` (a `Map` in utils.js) is threaded explicitly as
  an association list; `Map.set` is modelled by consing, which shadows older
  entries under lookup exactly as `Map.set` overwrites them.
* `driverAvailability` (a plain JS object keyed by driverId) is modelled as a
  total function `String → Availability`; keys never written are unreachable in
  the source (initialisation covers every driver) and map to a junk default here.
* String case-insensitive containment (`String.prototype.includes` after
  `toLowerCase`) is modelled on character lists with per-character lowercasing.
-/

/-- Coordinate pair `[lat, lon]` as carried by the JSON records. -/
structure Coords where
  lat : ℚ
  lon : ℚ
deriving DecidableEq

/-- Outcome of a single OSRM query for an ordered coordinate pair: a response
whose `routes[0].distance` is the given number of meters, a response with an
empty or missing route set, or a thrown error (network failure, timeout, ...). -/
inductive OsrmOutcome where
  | success (distanceMeters : ℚ)
  | emptyRoutes
  | failure
deriving DecidableEq

/-- The two external numeric sources the engine consumes: the floating-point
haversine computation and the OSRM routing service, both deterministic per
ordered coordinate pair for the duration of a run. -/
structure Oracle where
  haversine : Coords → Coords → ℚ
  osrm : Coords → Coords → OsrmOutcome

/-- The run-scoped distance cache of utils.js (`distanceCache`), keyed by the
ordered coordinate pair (the source key string `"lat,lon_lat,lon"` determines
and is determined by the pair). -/
abbrev Cache := List ((Coords × Coords) × ℚ)

/-- Lookup in the distance cache (`distanceCache.has` / `distanceCache.get`). -/
def cacheLookup : Cache → (Coords × Coords) → Option ℚ
  | [], _ => none
  | kv :: rest, k => if kv.1 = k then some kv.2 else cacheLookup rest k

/-- Store into the distance cache (`distanceCache.set`); consing shadows any
older entry under `cacheLookup`, as `Map.set` overwrites it. -/
def cacheInsert (c : Cache) (k : Coords × Coords) (v : ℚ) : Cache :=
  (k, v) :: c

/-- Result of one call to the distance resolver: the returned distance, the
cache afterwards, and whether an external OSRM query was issued. -/
structure ResolveRes where
  dist : ℚ
  cache : Cache
  osrmCalled : Bool

/-- utils.getDistanceFromOSRM: cached distance resolution with the haversine
value as pre-filter (skip the query above the threshold) and as fallback (on a
thrown error or an unusable response).  The source function catches every
error internally and always returns a number, which is why this embedding is
total.  The source's default `maxHaversineThreshold` is 30 and every caller
relies on it. -/
def getDistanceFromOSRM (O : Oracle) (cache : Cache) (startCoords endCoords : Coords)
    (maxHaversineThreshold : ℚ) : ResolveRes :=
  let cacheKey := (startCoords, endCoords)
  match cacheLookup cache cacheKey with
  | some v => ⟨v, cache, false⟩
  | none =>
    let haversineDistanceValue := O.haversine startCoords endCoords
    if maxHaversineThreshold < haversineDistanceValue then
      ⟨haversineDistanceValue, cacheInsert cache cacheKey haversineDistanceValue, false⟩
    else
      match O.osrm startCoords endCoords with
      | OsrmOutcome.success distanceMeters =>
        let distance := distanceMeters / 1000
        ⟨distance, cacheInsert cache cacheKey distance, true⟩
      | OsrmOutcome.emptyRoutes =>
        ⟨haversineDistanceValue, cacheInsert cache cacheKey haversineDistanceValue, true⟩
      | OsrmOutcome.failure =>
        -- the catch branch recomputes the haversine value; it is the same number
        ⟨haversineDistanceValue, cacheInsert cache cacheKey haversineDistanceValue, true⟩

/-- Helper `isTimeAfter(time1, time2)`: whether time1 is strictly after time2. -/
def isTimeAfter (time1 time2 : ℤ) : Bool :=
  decide (time2 < time1)

/-- Helper `addMinutesToTime`: add a number of minutes to a clock time. -/
def addMinutesToTime (timeStr : ℤ) (minutes : ℤ) : ℤ :=
  timeStr + minutes

/-- Helper `getTimeDifferenceInMinutes`: end minus start, possibly negative. -/
def getTimeDifferenceInMinutes (startTime endTime : ℤ) : ℤ :=
  endTime - startTime

/-- utils.isTimeInRange: inclusive on both ends. -/
def isTimeInRange (time startTime endTime : ℤ) : Bool :=
  decide (startTime ≤ time) && decide (time ≤ endTime)

/-- Per-character lowercasing of a string, the model of `toLowerCase()`. -/
def lowerChars (s : String) : List Char :=
  s.toList.map Char.toLower

/-- Whether the first character list starts with the second. -/
def charsStartsWith : List Char → List Char → Bool
  | _, [] => true
  | [], _ :: _ => false
  | c :: cs, d :: ds => c = d && charsStartsWith cs ds

/-- Whether the first character list contains the second as a contiguous run,
the model of `String.prototype.includes`. -/
def charsContains : List Char → List Char → Bool
  | [], needle => needle.isEmpty
  | c :: rest, needle => charsStartsWith (c :: rest) needle || charsContains rest needle

/-- Driver input record.  `shiftStart`/`shiftEnd`/`maxDailyWorkHours` are
optional in the JSON; a missing `blockedAddresses` behaves exactly as the empty
list (the source's explicit empty-list early return equals `some(...)` on `[]`),
so it is modelled as a plain list. -/
structure Driver where
  driverId : String
  city : String
  city_coords : Coords
  numberOfSeats : ℕ
  fuelCost : ℚ
  shiftStart : Option ℤ
  shiftEnd : Option ℤ
  maxDailyWorkHours : Option ℕ
  blockedAddresses : List String

/-- Ride input record; `rid` is the source's `_id` field. -/
structure Ride where
  rid : String
  date : ℕ
  startTime : ℤ
  endTime : ℤ
  startPoint : String
  startPoint_coords : Coords
  endPoint : String
  endPoint_coords : Coords
  numberOfSeats : ℕ
deriving DecidableEq

/-- Per-driver mutable availability state (`driverAvailability[driverId]`). -/
structure Availability where
  lastRideEndTime : ℤ
  lastRideEndPoint : String
  lastRideEndPoint_coords : Coords
  busyUntil : ℤ
  lastActiveDate : Option ℕ

/-- Per-driver accumulator (`assignments` array entry): the accepted ride ids in
acceptance order and the per-date minutes ledger (`dailyWorkMinutes`, a JS
object keyed by date, modelled as a total function defaulting to 0, which also
renders the source's `|| 0` read). -/
structure Assignment where
  driverId : String
  rideIds : List String
  dailyWorkMinutes : ℕ → ℤ

/-- isDriverOnShift: drivers missing either shift bound always pass. -/
def isDriverOnShift (d : Driver) (startTime endTime : ℤ) : Bool :=
  match d.shiftStart, d.shiftEnd with
  | some lo, some hi =>
    isTimeInRange startTime lo hi && isTimeInRange endTime lo hi
  | _, _ => true

/-- isAddressBlocked: some blocked substring occurs case-insensitively in the
address.  The source's explicit early return for a missing or empty blocked
list coincides with `List.any` on `[]`. -/
def isAddressBlocked (d : Driver) (address : String) : Bool :=
  d.blockedAddresses.any fun blockedAddress =>
    charsContains (lowerChars address) (lowerChars blockedAddress)

/-- wouldExceedDailyHours.  The source guard `!driver.maxDailyWorkHours` is true
both for a missing value and for the number 0 (JS falsiness), so a driver whose
cap is present but 0 is treated as uncapped. -/
def wouldExceedDailyHours (driverAssignment : Assignment) (d : Driver) (r : Ride) : Bool :=
  match d.maxDailyWorkHours with
  | none => false
  | some h =>
    if h = 0 then false
    else
      let maxDailyMinutes : ℤ := (h : ℤ) * 60
      let currentDailyMinutes := driverAssignment.dailyWorkMinutes r.date
      let rideDurationMinutes := getTimeDifferenceInMinutes r.startTime r.endTime
      decide (maxDailyMinutes < currentDailyMinutes + rideDurationMinutes)

/-- One distance resolution as performed inline by the engine: haversine
pre-filter at 50 (counting a saved API call above it), otherwise the resolver
with its default threshold 30.  The engine's own try/catch around the resolver
is unreachable because the resolver returns totally, so it has no counterpart. -/
def resolveEngineDistance (O : Oracle) (cache : Cache) (a b : Coords) : ℚ × Cache × ℕ :=
  let hv := O.haversine a b
  if hv ≤ 50 then
    let res := getDistanceFromOSRM O cache a b 30
    (res.dist, res.cache, 0)
  else
    (hv, cache, 1)

/-- Result of evaluating one driver for one ride inside the assignment loop:
`cost` is `some` exactly when the source reaches the cost computation (the
driver passed every check); `emptyDist` is `some` exactly when the empty-leg
distance was resolved (the first five checks passed); `rideDist` accompanies
`cost`.  The cache and the saved-API-call increment are threaded because the
source mutates them even for drivers that fail the reachability check. -/
structure EvalRes where
  cost : Option ℚ
  emptyDist : Option ℚ
  rideDist : Option ℚ
  cache : Cache
  saved : ℕ

/-- The body of the inner `for (const driver of drivers)` loop of
assignDriversToRides, for a single driver: the six feasibility checks in source
order, then the assignment-cost computation. -/
def evalDriver (O : Oracle) (r : Ride) (d : Driver) (av : Availability)
    (asg : Assignment) (cache : Cache) : EvalRes :=
  if d.numberOfSeats < r.numberOfSeats then ⟨none, none, none, cache, 0⟩
  else if isTimeAfter av.busyUntil r.startTime then ⟨none, none, none, cache, 0⟩
  else if !(isDriverOnShift d r.startTime r.endTime) then ⟨none, none, none, cache, 0⟩
  else if isAddressBlocked d r.startPoint || isAddressBlocked d r.endPoint then
    ⟨none, none, none, cache, 0⟩
  else if wouldExceedDailyHours asg d r then ⟨none, none, none, cache, 0⟩
  else
    let er := resolveEngineDistance O cache av.lastRideEndPoint_coords r.startPoint_coords
    let emptyRideDistance := er.1
    let emptyRideDurationMinutes : ℤ := ⌈emptyRideDistance / 60 * 60⌉
    let expectedArrivalTime := addMinutesToTime av.busyUntil emptyRideDurationMinutes
    if isTimeAfter expectedArrivalTime r.startTime then
      ⟨none, some emptyRideDistance, none, er.2.1, er.2.2⟩
    else
      let rideDurationMinutes := getTimeDifferenceInMinutes r.startTime r.endTime
      let driverTimeCost : ℚ := ((rideDurationMinutes : ℚ) / 60) * 30
      let rr := resolveEngineDistance O er.2.1 r.startPoint_coords r.endPoint_coords
      let rideDistance := rr.1
      let rideFuelCost := rideDistance * d.fuelCost
      let emptyRideFuelCost := emptyRideDistance * d.fuelCost
      let totalAssignmentCost := driverTimeCost + rideFuelCost + emptyRideFuelCost
      ⟨some totalAssignmentCost, some emptyRideDistance, some rideDistance,
        rr.2.1, er.2.2 + rr.2.2⟩

/-- Result of the inner driver loop: the tracked `(bestDriverId, minCost)` pair
(`none` models the initial `null` / `Infinity` pair), the cache and the
saved-API-call counter afterwards. -/
structure ChooseRes where
  best : Option (String × ℚ)
  cache : Cache
  saved : ℕ

/-- The update of the tracked `(bestDriverId, minCost)` pair after one driver's
evaluation: a driver whose cost was evaluated takes over exactly when its cost
is strictly below the running minimum (`totalAssignmentCost < minCost`; the
initial minimum `Infinity` is the `none` case). -/
def updateBest (cost : Option ℚ) (id : String) (best : Option (String × ℚ)) :
    Option (String × ℚ) :=
  match cost, best with
  | none, b => b
  | some c, none => some (id, c)
  | some c, some p => if c < p.2 then some (id, c) else some p

/-- The inner `for (const driver of drivers)` loop: evaluate every driver in
order, keeping the first driver that strictly lowers the running minimum cost. -/
def chooseBest (O : Oracle) (r : Ride) (avail : String → Availability)
    (assignments : List Assignment) :
    List Driver → Option (String × ℚ) → Cache → ℕ → ChooseRes
  | [], best, cache, saved => ⟨best, cache, saved⟩
  | d :: ds, best, cache, saved =>
    let av := avail d.driverId
    let asg := (assignments.find? fun a => a.driverId == d.driverId).getD
      ⟨d.driverId, [], fun _ => 0⟩
    let res := evalDriver O r d av asg cache
    chooseBest O r avail assignments ds (updateBest res.cost d.driverId best)
      res.cache (saved + res.saved)

/-- Apply a function to the first assignment entry whose driverId matches, the
model of `assignments.findIndex` followed by in-place mutation; when no entry
matches nothing happens (unreachable in the source: initialisation creates an
entry per driver). -/
def updateFirstAssign : List Assignment → String → (Assignment → Assignment) → List Assignment
  | [], _, _ => []
  | a :: rest, id, f =>
    if a.driverId = id then f a :: rest else a :: updateFirstAssign rest id f

/-- The engine's whole mutable state during the ride loop. -/
structure EngineState where
  assignments : List Assignment
  avail : String → Availability
  totalCost : ℚ
  cache : Cache
  apiCallsSaved : ℕ

/-- The update a commit applies to the winning driver's assignment entry:
append the ride id and add the ride duration to the day's ledger. -/
def commitAssign (r : Ride) (a : Assignment) : Assignment :=
  { driverId := a.driverId,
    rideIds := a.rideIds ++ [r.rid],
    dailyWorkMinutes := fun dt =>
      if dt = r.date then
        a.dailyWorkMinutes dt + getTimeDifferenceInMinutes r.startTime r.endTime
      else a.dailyWorkMinutes dt }

/-- The availability a commit installs for the winning driver: the ride's end
state, with the ride's date recorded. -/
def commitAvail (r : Ride) : Availability :=
  { lastRideEndTime := r.endTime,
    lastRideEndPoint := r.endPoint,
    lastRideEndPoint_coords := r.endPoint_coords,
    busyUntil := r.endTime,
    lastActiveDate := some r.date }

/-- The body of the outer `for (const ride of rides)` loop: run the inner driver
loop, then commit the best driver if one was found.  The commit is guarded by
JS truthiness of `bestDriverId`, which also rejects the empty string.  The
source's `drivers.find(...)` on commit binds a variable it never reads and has
no counterpart. -/
def processRide (O : Oracle) (drivers : List Driver) (st : EngineState) (r : Ride) :
    EngineState :=
  let ch := chooseBest O r st.avail st.assignments drivers none st.cache st.apiCallsSaved
  match ch.best with
  | none => { st with cache := ch.cache, apiCallsSaved := ch.saved }
  | some p =>
    if p.1 = "" then { st with cache := ch.cache, apiCallsSaved := ch.saved }
    else
      { assignments := updateFirstAssign st.assignments p.1 (commitAssign r),
        avail := fun idx => if idx = p.1 then commitAvail r else st.avail idx,
        totalCost := st.totalCost + p.2,
        cache := ch.cache,
        apiCallsSaved := ch.saved }

/-- The outer ride loop, processing rides in order. -/
def runRides (O : Oracle) (drivers : List Driver) : EngineState → List Ride → EngineState
  | st, [] => st
  | st, r :: rs => runRides O drivers (processRide O drivers st r) rs

/-- The comparator of `rides.sort`: by date, then by startTime, as a boolean
total preorder. -/
def rideLe (a b : Ride) : Bool :=
  decide (a.date < b.date) || (decide (a.date = b.date) && decide (a.startTime ≤ b.startTime))

/-- The in-place `rides.sort(...)` at the top of assignDriversToRides; the
caller's array holds this ordering after the call. -/
def sortRides (rides : List Ride) : List Ride :=
  rides.mergeSort rideLe

/-- Initial availability of one driver (`driver.shiftStart || '00:00'`). -/
def initialAvailability (d : Driver) : Availability :=
  { lastRideEndTime := d.shiftStart.getD 0,
    lastRideEndPoint := d.city,
    lastRideEndPoint_coords := d.city_coords,
    busyUntil := d.shiftStart.getD 0,
    lastActiveDate := none }

/-- The `driverAvailability` object after the initialisation `forEach`; ids
outside the driver list are unreachable in the source and map to a junk value. -/
def initAvailMap (drivers : List Driver) : String → Availability :=
  drivers.foldl
    (fun f d => fun idx => if idx = d.driverId then initialAvailability d else f idx)
    (fun _ => ⟨0, "", ⟨0, 0⟩, 0, none⟩)

/-- The engine state before the ride loop; the distance cache is the utils.js
module cache as the run starts (empty for a fresh process). -/
def initState (cache0 : Cache) (drivers : List Driver) : EngineState :=
  { assignments := drivers.map fun d => ⟨d.driverId, [], fun _ => 0⟩,
    avail := initAvailMap drivers,
    totalCost := 0,
    cache := cache0,
    apiCallsSaved := 0 }

/-- One entry of the returned `assignments` array. -/
structure OutAssign where
  driverId : String
  rideIds : List String
deriving DecidableEq

/-- `Math.round(x * 100) / 100`; JS `Math.round` is floor of the value plus one
half. -/
def round2 (q : ℚ) : ℚ :=
  ((⌊q * 100 + 1 / 2⌋ : ℤ) : ℚ) / 100

/-- The value returned by assignDriversToRides, extended with `ridesAfter`: the
content of the caller's rides array after the call (the source sorts that array
in place, so the caller observes this order afterwards; driver records and the
individual ride records are never written). -/
structure AssignOutput where
  assignments : List OutAssign
  totalCost : ℚ
  ridesAfter : List Ride

/-- assignDriversToRides: sort the rides, run the greedy loop, drop drivers
with no rides, round the total once. -/
def assignDriversToRides (O : Oracle) (cache0 : Cache) (driversData : List Driver)
    (ridesData : List Ride) : AssignOutput :=
  let rides := sortRides ridesData
  let final := runRides O driversData (initState cache0 driversData) rides
  { assignments :=
      (final.assignments.filter fun a => decide (0 < a.rideIds.length)).map fun a =>
        ⟨a.driverId, a.rideIds⟩,
    totalCost := round2 final.totalCost,
    ridesAfter := rides }

/-! ### Basic cache lemmas -/

/-- Looking up the key just stored returns the stored value. -/
theorem cacheLookup_insert_self (c : Cache) (k : Coords × Coords) (v : ℚ) :
    cacheLookup (cacheInsert c k v) k = some v := by
  simp [cacheInsert, cacheLookup]

/-! ### Claims C6 and C7: the distance resolver -/

/-- C6: for a coordinate pair not in the cache whose geometric distance exceeds
the threshold, the resolver returns exactly the geometric distance, issues no
external query, stores the geometric value in the cache, and a second
resolution of the same pair afterwards issues no external query either. -/
theorem claim6_threshold_no_query (O : Oracle) (cache : Cache) (s e : Coords) (thr : ℚ)
    (hmiss : cacheLookup cache (s, e) = none)
    (hfar : thr < O.haversine s e) :
    (getDistanceFromOSRM O cache s e thr).dist = O.haversine s e ∧
    (getDistanceFromOSRM O cache s e thr).osrmCalled = false ∧
    cacheLookup (getDistanceFromOSRM O cache s e thr).cache (s, e) = some (O.haversine s e) ∧
    (getDistanceFromOSRM O (getDistanceFromOSRM O cache s e thr).cache s e thr).osrmCalled
      = false := by
  simp only [getDistanceFromOSRM, hmiss, if_pos hfar, cacheLookup_insert_self]
  exact ⟨trivial, trivial, trivial, trivial⟩

/-- Witness for C6 at a concrete input: empty cache, constant geometric
distance 40, threshold 30. -/
theorem claim6_witness :
    cacheLookup [] ((⟨0, 0⟩ : Coords), (⟨1, 1⟩ : Coords)) = none ∧
    (30 : ℚ) < 40 ∧
    ((getDistanceFromOSRM ⟨fun _ _ => 40, fun _ _ => OsrmOutcome.success 1000⟩ [] ⟨0, 0⟩ ⟨1, 1⟩ 30).dist = 40 ∧
     (getDistanceFromOSRM ⟨fun _ _ => 40, fun _ _ => OsrmOutcome.success 1000⟩ [] ⟨0, 0⟩ ⟨1, 1⟩ 30).osrmCalled = false ∧
     cacheLookup (getDistanceFromOSRM ⟨fun _ _ => 40, fun _ _ => OsrmOutcome.success 1000⟩ [] ⟨0, 0⟩ ⟨1, 1⟩ 30).cache (⟨0, 0⟩, ⟨1, 1⟩) = some 40 ∧
     (getDistanceFromOSRM ⟨fun _ _ => 40, fun _ _ => OsrmOutcome.success 1000⟩
        (getDistanceFromOSRM ⟨fun _ _ => 40, fun _ _ => OsrmOutcome.success 1000⟩ [] ⟨0, 0⟩ ⟨1, 1⟩ 30).cache ⟨0, 0⟩ ⟨1, 1⟩ 30).osrmCalled = false) :=
  ⟨rfl, by norm_num,
    claim6_threshold_no_query _ _ _ _ _ rfl (by norm_num)⟩

/-- C7: when the pair is not cached, the geometric distance does not exceed the
threshold (so a query is issued), and the query fails — by a thrown error or by
a response with an empty or missing route set — the resolver returns the
geometric distance, caches it, and (being a total function) propagates no
error. -/
theorem claim7_failure_fallback (O : Oracle) (cache : Cache) (s e : Coords) (thr : ℚ)
    (hmiss : cacheLookup cache (s, e) = none)
    (hnear : ¬ thr < O.haversine s e)
    (hfail : O.osrm s e = OsrmOutcome.emptyRoutes ∨ O.osrm s e = OsrmOutcome.failure) :
    (getDistanceFromOSRM O cache s e thr).dist = O.haversine s e ∧
    (getDistanceFromOSRM O cache s e thr).osrmCalled = true ∧
    cacheLookup (getDistanceFromOSRM O cache s e thr).cache (s, e)
      = some (O.haversine s e) := by
  rcases hfail with h | h <;>
    simp only [getDistanceFromOSRM, hmiss, if_neg hnear, h, cacheLookup_insert_self] <;>
    exact ⟨trivial, trivial, trivial⟩

/-- Witness for C7 at a concrete input: empty cache, geometric distance 7,
threshold 30, a failing query. -/
theorem claim7_witness :
    cacheLookup [] ((⟨0, 0⟩ : Coords), (⟨1, 1⟩ : Coords)) = none ∧
    ¬ (30 : ℚ) < 7 ∧
    ((getDistanceFromOSRM ⟨fun _ _ => 7, fun _ _ => OsrmOutcome.failure⟩ [] ⟨0, 0⟩ ⟨1, 1⟩ 30).dist = 7 ∧
     (getDistanceFromOSRM ⟨fun _ _ => 7, fun _ _ => OsrmOutcome.failure⟩ [] ⟨0, 0⟩ ⟨1, 1⟩ 30).osrmCalled = true ∧
     cacheLookup (getDistanceFromOSRM ⟨fun _ _ => 7, fun _ _ => OsrmOutcome.failure⟩ [] ⟨0, 0⟩ ⟨1, 1⟩ 30).cache (⟨0, 0⟩, ⟨1, 1⟩) = some 7) :=
  ⟨rfl, by norm_num,
    claim7_failure_fallback _ _ _ _ _ rfl (by norm_num) (Or.inr rfl)⟩

/-! ### Claim C1: the feasibility filter -/

/-- The empty-leg distance the engine resolves for a given availability state
and ride (the inline 50-km pre-filter followed by the resolver). -/
def emptyLegResolved (O : Oracle) (av : Availability) (r : Ride) (cache : Cache) : ℚ :=
  (resolveEngineDistance O cache av.lastRideEndPoint_coords r.startPoint_coords).1

/-- Modelled from claim C1's words, literally: seats; shift window inclusive
when both bounds are defined (drivers without a defined shift pass); no
case-insensitive blocked-substring hit on either endpoint; when
`maxDailyWorkHours` is defined, ledger plus duration at most the cap in
minutes; `busyUntil` not after the start; the expected arrival
`addMinutes(busyUntil, ceil(emptyLegDistanceKm))` not after the start. -/
def feasibleSpec (O : Oracle) (r : Ride) (d : Driver) (av : Availability)
    (asg : Assignment) (cache : Cache) : Prop :=
  r.numberOfSeats ≤ d.numberOfSeats ∧
  (∀ lo hi, d.shiftStart = some lo → d.shiftEnd = some hi →
     lo ≤ r.startTime ∧ r.startTime ≤ hi ∧ lo ≤ r.endTime ∧ r.endTime ≤ hi) ∧
  (∀ b ∈ d.blockedAddresses, charsContains (lowerChars r.startPoint) (lowerChars b) = false) ∧
  (∀ b ∈ d.blockedAddresses, charsContains (lowerChars r.endPoint) (lowerChars b) = false) ∧
  (∀ h, d.maxDailyWorkHours = some h →
     asg.dailyWorkMinutes r.date + (r.endTime - r.startTime) ≤ (h : ℤ) * 60) ∧
  av.busyUntil ≤ r.startTime ∧
  av.busyUntil + ⌈emptyLegResolved O av r cache⌉ ≤ r.startTime

/-- The amendment C1 needs: a driver whose `maxDailyWorkHours` is present but
equal to 0 also passes the daily-hour check (JS falsiness of the number 0);
every other clause is exactly as in the claim. -/
def feasibleSpecAmended (O : Oracle) (r : Ride) (d : Driver) (av : Availability)
    (asg : Assignment) (cache : Cache) : Prop :=
  r.numberOfSeats ≤ d.numberOfSeats ∧
  (∀ lo hi, d.shiftStart = some lo → d.shiftEnd = some hi →
     lo ≤ r.startTime ∧ r.startTime ≤ hi ∧ lo ≤ r.endTime ∧ r.endTime ≤ hi) ∧
  (∀ b ∈ d.blockedAddresses, charsContains (lowerChars r.startPoint) (lowerChars b) = false) ∧
  (∀ b ∈ d.blockedAddresses, charsContains (lowerChars r.endPoint) (lowerChars b) = false) ∧
  (∀ h, d.maxDailyWorkHours = some h → h ≠ 0 →
     asg.dailyWorkMinutes r.date + (r.endTime - r.startTime) ≤ (h : ℤ) * 60) ∧
  av.busyUntil ≤ r.startTime ∧
  av.busyUntil + ⌈emptyLegResolved O av r cache⌉ ≤ r.startTime

/-- The engine's `Math.ceil((d / 60) * 60)` equals the ceiling of `d` itself
over exact rationals. -/
theorem ceil_div_mul_self (x : ℚ) : ⌈x / 60 * 60⌉ = ⌈x⌉ := by
  rw [div_mul_cancel₀]
  norm_num

/-- Characterisation of when the inner loop reaches the cost computation, in
terms of the source's own boolean guards. -/
theorem evalDriver_cost_isSome_iff (O : Oracle) (r : Ride) (d : Driver)
    (av : Availability) (asg : Assignment) (cache : Cache) :
    (evalDriver O r d av asg cache).cost.isSome = true ↔
      ¬(d.numberOfSeats < r.numberOfSeats) ∧
      isTimeAfter av.busyUntil r.startTime = false ∧
      isDriverOnShift d r.startTime r.endTime = true ∧
      isAddressBlocked d r.startPoint = false ∧
      isAddressBlocked d r.endPoint = false ∧
      wouldExceedDailyHours asg d r = false ∧
      isTimeAfter
        (addMinutesToTime av.busyUntil ⌈emptyLegResolved O av r cache / 60 * 60⌉)
        r.startTime = false := by
  unfold evalDriver emptyLegResolved
  split_ifs with h1 h2 h3 h4 h5 <;> simp_all
  · rcases h4 with h4 | h4 <;> intro hs he <;> simp_all
  · split_ifs with h6 <;> simp_all

/-- isDriverOnShift, read as the claim phrases it. -/
theorem isDriverOnShift_iff (d : Driver) (s e : ℤ) :
    isDriverOnShift d s e = true ↔
      ∀ lo hi, d.shiftStart = some lo → d.shiftEnd = some hi →
        lo ≤ s ∧ s ≤ hi ∧ lo ≤ e ∧ e ≤ hi := by
  rcases hss : d.shiftStart with _ | lo <;> rcases hse : d.shiftEnd with _ | hi <;>
    simp [isDriverOnShift, isTimeInRange, hss, hse, and_assoc]

/-- isAddressBlocked, read as the claim phrases it. -/
theorem isAddressBlocked_false_iff (d : Driver) (a : String) :
    isAddressBlocked d a = false ↔
      ∀ b ∈ d.blockedAddresses, charsContains (lowerChars a) (lowerChars b) = false := by
  simp [isAddressBlocked]

/-- wouldExceedDailyHours, read as the (amended) claim phrases it; the `h ≠ 0`
premise reflects the JS falsiness of a zero cap. -/
theorem wouldExceedDailyHours_false_iff (asg : Assignment) (d : Driver) (r : Ride) :
    wouldExceedDailyHours asg d r = false ↔
      ∀ h, d.maxDailyWorkHours = some h → h ≠ 0 →
        asg.dailyWorkMinutes r.date + (r.endTime - r.startTime) ≤ (h : ℤ) * 60 := by
  rcases hmx : d.maxDailyWorkHours with _ | h
  · simp [wouldExceedDailyHours, hmx]
  · by_cases h0 : h = 0 <;>
      simp [wouldExceedDailyHours, hmx, h0, getTimeDifferenceInMinutes]

/-- C1 (amended): inside the assignment loop, a driver's cost is evaluated if
and only if the claim's six checks pass, with the daily-hour clause weakened so
that a present-but-zero `maxDailyWorkHours` also passes (JS treats the number 0
as no cap); all the other clauses are exactly as the claim states them. -/
theorem claim1_feasibility_iff_amended (O : Oracle) (r : Ride) (d : Driver)
    (av : Availability) (asg : Assignment) (cache : Cache) :
    (evalDriver O r d av asg cache).cost.isSome = true ↔
    feasibleSpecAmended O r d av asg cache := by
  rw [evalDriver_cost_isSome_iff]
  unfold feasibleSpecAmended
  rw [isDriverOnShift_iff, isAddressBlocked_false_iff, isAddressBlocked_false_iff,
    wouldExceedDailyHours_false_iff]
  simp only [isTimeAfter, addMinutesToTime, ceil_div_mul_self,
    decide_eq_false_iff_not, Int.not_lt, Nat.not_lt]
  constructor
  · rintro ⟨a1, a2, a3, a4, a5, a6, a7⟩
    exact ⟨a1, a3, a4, a5, a6, a2, a7⟩
  · rintro ⟨a1, a2, a3, a4, a5, a6, a7⟩
    exact ⟨a1, a6, a2, a3, a4, a5, a7⟩

/-! ### Concrete fixtures used by witnesses and counterexamples -/

/-- Oracle whose geometric distance is identically 0 and whose routed query
always fails. -/
def oracleZero : Oracle := ⟨fun _ _ => 0, fun _ _ => OsrmOutcome.failure⟩

/-- Oracle whose geometric distance is identically 0 but whose routed service
reports a 5000-meter route for every pair, identical endpoints included. -/
def oracleFiveKm : Oracle := ⟨fun _ _ => 0, fun _ _ => OsrmOutcome.success 5000⟩

/-- Driver with a present-but-zero daily cap and no other restrictions. -/
def driverZeroCap : Driver := ⟨"d1", "X", ⟨0, 0⟩, 4, 0, none, none, some 0, []⟩

/-- Unrestricted driver with fuel cost 1, positioned at the origin. -/
def driverFuelOne : Driver := ⟨"d1", "X", ⟨0, 0⟩, 4, 1, none, none, none, []⟩

/-- A well-formed morning ride, 10:00 to 10:30, colocated with the origin. -/
def rideMorning : Ride := ⟨"r1", 0, 600, 630, "A", ⟨0, 0⟩, "B", ⟨0, 0⟩, 1⟩

/-- Fresh per-driver accumulator entry. -/
def asgEmpty : Assignment := ⟨"d1", [], fun _ => 0⟩

/-- Counterexample to C1 as stated: a driver whose `maxDailyWorkHours` is
defined and equal to 0 has its cost evaluated for a 30-minute ride (JS
falsiness of 0 disables the check), although the claim's condition list —
which demands ledger plus duration at most `0 * 60` for a defined cap —
rejects it. -/
theorem claim1_counterexample :
    (evalDriver oracleZero rideMorning driverZeroCap
        (initialAvailability driverZeroCap) asgEmpty []).cost.isSome = true ∧
    ¬ feasibleSpec oracleZero rideMorning driverZeroCap
        (initialAvailability driverZeroCap) asgEmpty [] := by
  constructor
  · rw [evalDriver_cost_isSome_iff]
    refine ⟨?_, ?_, ?_, ?_, ?_, ?_, ?_⟩ <;>
      norm_num [driverZeroCap, rideMorning, asgEmpty, initialAvailability, oracleZero,
        isTimeAfter, isDriverOnShift, isAddressBlocked, wouldExceedDailyHours,
        addMinutesToTime, emptyLegResolved, resolveEngineDistance, getDistanceFromOSRM,
        cacheLookup]
  · rintro ⟨-, -, -, -, hcap, -, -⟩
    have h := hcap 0 (by rw [driverZeroCap])
    simp [asgEmpty, rideMorning] at h

/-! ### Claim C3: the cost formula -/

/-- The cost the inner loop computes is driver-time plus ride fuel plus
empty-leg fuel, with the resolved distances it exposes. -/
theorem evalDriver_cost_formula (O : Oracle) (r : Ride) (d : Driver)
    (av : Availability) (asg : Assignment) (cache : Cache) (c e rdist : ℚ)
    (hc : (evalDriver O r d av asg cache).cost = some c)
    (he : (evalDriver O r d av asg cache).emptyDist = some e)
    (hr : (evalDriver O r d av asg cache).rideDist = some rdist) :
    c = ((r.endTime - r.startTime : ℤ) : ℚ) / 60 * 30 + rdist * d.fuelCost
        + e * d.fuelCost := by
  unfold evalDriver at hc he hr
  split_ifs at hc he hr <;> simp_all [getTimeDifferenceInMinutes] <;>
    split_ifs at hc he hr <;> simp_all

/-- The resolved empty-leg distance the inner loop exposes is
`emptyLegResolved`. -/
theorem evalDriver_emptyDist_eq (O : Oracle) (r : Ride) (d : Driver)
    (av : Availability) (asg : Assignment) (cache : Cache) (e : ℚ)
    (he : (evalDriver O r d av asg cache).emptyDist = some e) :
    e = emptyLegResolved O av r cache := by
  unfold evalDriver at he
  unfold emptyLegResolved
  split_ifs at he <;> simp_all <;> split_ifs at he <;> simp_all

/-- When the driver already sits at the ride's start, the geometric distance of
the identical pair is 0, the pair is not cached, and the routed query fails,
returns no route, or reports distance 0, the resolved empty leg is 0. -/
theorem emptyLegResolved_zero (O : Oracle) (av : Availability) (r : Ride) (cache : Cache)
    (hco : av.lastRideEndPoint_coords = r.startPoint_coords)
    (hhv : O.haversine r.startPoint_coords r.startPoint_coords = 0)
    (hmiss : cacheLookup cache (r.startPoint_coords, r.startPoint_coords) = none)
    (hosrm : O.osrm r.startPoint_coords r.startPoint_coords = OsrmOutcome.failure ∨
             O.osrm r.startPoint_coords r.startPoint_coords = OsrmOutcome.emptyRoutes ∨
             O.osrm r.startPoint_coords r.startPoint_coords = OsrmOutcome.success 0) :
    emptyLegResolved O av r cache = 0 := by
  unfold emptyLegResolved resolveEngineDistance getDistanceFromOSRM
  rw [hco, hhv]
  rcases hosrm with h | h | h <;>
    simp [hmiss, h] <;> norm_num

/-- C3 (amended): for a feasible pair with resolved distances `e` and `rdist`
the evaluated cost is `(rideDurationMinutes/60)*30 + rdist*fuelCost +
e*fuelCost`; the empty-leg fuel term vanishes for a driver already at the
ride's start provided the resolution of the identical coordinate pair yields 0
— it is not cached otherwise, its geometric distance is 0, and the routed
query fails, returns no route, or reports 0 (the source consults the routed
service even for an identical pair, so a nonzero routed answer makes the term
nonzero). -/
theorem claim3_cost_formula_amended (O : Oracle) (r : Ride) (d : Driver)
    (av : Availability) (asg : Assignment) (cache : Cache) (c e rdist : ℚ)
    (hc : (evalDriver O r d av asg cache).cost = some c)
    (he : (evalDriver O r d av asg cache).emptyDist = some e)
    (hr : (evalDriver O r d av asg cache).rideDist = some rdist) :
    c = ((r.endTime - r.startTime : ℤ) : ℚ) / 60 * 30 + rdist * d.fuelCost
        + e * d.fuelCost ∧
    (av.lastRideEndPoint_coords = r.startPoint_coords →
     O.haversine r.startPoint_coords r.startPoint_coords = 0 →
     cacheLookup cache (r.startPoint_coords, r.startPoint_coords) = none →
     (O.osrm r.startPoint_coords r.startPoint_coords = OsrmOutcome.failure ∨
      O.osrm r.startPoint_coords r.startPoint_coords = OsrmOutcome.emptyRoutes ∨
      O.osrm r.startPoint_coords r.startPoint_coords = OsrmOutcome.success 0) →
     e * d.fuelCost = 0) := by
  refine ⟨evalDriver_cost_formula O r d av asg cache c e rdist hc he hr, ?_⟩
  intro hco hhv hmiss hosrm
  rw [evalDriver_emptyDist_eq O r d av asg cache e he,
    emptyLegResolved_zero O av r cache hco hhv hmiss hosrm]
  ring

/-- Witness for C3 at a concrete input: colocated unrestricted driver with fuel
cost 1, failing routed service, geometric distance identically 0; the evaluated
cost is 15 = (30/60)*30. -/
theorem claim3_witness :
    (evalDriver oracleZero rideMorning driverFuelOne
        (initialAvailability driverFuelOne) asgEmpty []).cost = some 15 ∧
    (evalDriver oracleZero rideMorning driverFuelOne
        (initialAvailability driverFuelOne) asgEmpty []).emptyDist = some 0 ∧
    (evalDriver oracleZero rideMorning driverFuelOne
        (initialAvailability driverFuelOne) asgEmpty []).rideDist = some 0 ∧
    ((15 : ℚ) = ((rideMorning.endTime - rideMorning.startTime : ℤ) : ℚ) / 60 * 30
        + 0 * driverFuelOne.fuelCost + 0 * driverFuelOne.fuelCost ∧
     ((initialAvailability driverFuelOne).lastRideEndPoint_coords
          = rideMorning.startPoint_coords →
      oracleZero.haversine rideMorning.startPoint_coords rideMorning.startPoint_coords = 0 →
      cacheLookup [] (rideMorning.startPoint_coords, rideMorning.startPoint_coords) = none →
      (oracleZero.osrm rideMorning.startPoint_coords rideMorning.startPoint_coords
          = OsrmOutcome.failure ∨
       oracleZero.osrm rideMorning.startPoint_coords rideMorning.startPoint_coords
          = OsrmOutcome.emptyRoutes ∨
       oracleZero.osrm rideMorning.startPoint_coords rideMorning.startPoint_coords
          = OsrmOutcome.success 0) →
      (0 : ℚ) * driverFuelOne.fuelCost = 0)) := by
  have hc : (evalDriver oracleZero rideMorning driverFuelOne
      (initialAvailability driverFuelOne) asgEmpty []).cost = some 15 := by
    norm_num [evalDriver, oracleZero, rideMorning, driverFuelOne, asgEmpty,
      initialAvailability, isTimeAfter, isDriverOnShift, isAddressBlocked,
      wouldExceedDailyHours, addMinutesToTime, getTimeDifferenceInMinutes,
      resolveEngineDistance, getDistanceFromOSRM, cacheLookup, cacheInsert]
  have he : (evalDriver oracleZero rideMorning driverFuelOne
      (initialAvailability driverFuelOne) asgEmpty []).emptyDist = some 0 := by
    norm_num [evalDriver, oracleZero, rideMorning, driverFuelOne, asgEmpty,
      initialAvailability, isTimeAfter, isDriverOnShift, isAddressBlocked,
      wouldExceedDailyHours, addMinutesToTime, getTimeDifferenceInMinutes,
      resolveEngineDistance, getDistanceFromOSRM, cacheLookup, cacheInsert]
  have hr : (evalDriver oracleZero rideMorning driverFuelOne
      (initialAvailability driverFuelOne) asgEmpty []).rideDist = some 0 := by
    norm_num [evalDriver, oracleZero, rideMorning, driverFuelOne, asgEmpty,
      initialAvailability, isTimeAfter, isDriverOnShift, isAddressBlocked,
      wouldExceedDailyHours, addMinutesToTime, getTimeDifferenceInMinutes,
      resolveEngineDistance, getDistanceFromOSRM, cacheLookup, cacheInsert]
  exact ⟨hc, he, hr,
    claim3_cost_formula_amended oracleZero rideMorning driverFuelOne
      (initialAvailability driverFuelOne) asgEmpty [] 15 0 0 hc he hr⟩

/-- Counterexample to C3's colocated clause as stated: with the driver already
at the ride's start but a routed service answering 5000 meters for the
identical coordinate pair, the engine resolves an empty-leg distance of 5 and
the empty-leg fuel term is 5, not zero. -/
theorem claim3_counterexample :
    (initialAvailability driverFuelOne).lastRideEndPoint_coords
        = rideMorning.startPoint_coords ∧
    (evalDriver oracleFiveKm rideMorning driverFuelOne
        (initialAvailability driverFuelOne) asgEmpty []).emptyDist = some 5 ∧
    (evalDriver oracleFiveKm rideMorning driverFuelOne
        (initialAvailability driverFuelOne) asgEmpty []).cost
      = some (((rideMorning.endTime - rideMorning.startTime : ℤ) : ℚ) / 60 * 30
          + 5 * driverFuelOne.fuelCost + 5 * driverFuelOne.fuelCost) ∧
    (5 : ℚ) * driverFuelOne.fuelCost ≠ 0 := by
  refine ⟨rfl, ?_, ?_, by norm_num [driverFuelOne]⟩ <;>
    norm_num [evalDriver, oracleFiveKm, rideMorning, driverFuelOne, asgEmpty,
      initialAvailability, isTimeAfter, isDriverOnShift, isAddressBlocked,
      wouldExceedDailyHours, addMinutesToTime, getTimeDifferenceInMinutes,
      resolveEngineDistance, getDistanceFromOSRM, cacheLookup, cacheInsert]

/-! ### Claim C10: the in-place sort -/

/-- Ascending (date, startTime) as a proposition. -/
def lexProp (a b : Ride) : Prop :=
  a.date < b.date ∨ (a.date = b.date ∧ a.startTime ≤ b.startTime)

/-- The sort comparator is transitive. -/
theorem rideLe_trans (a b c : Ride) (hab : rideLe a b = true) (hbc : rideLe b c = true) :
    rideLe a c = true := by
  simp only [rideLe, Bool.or_eq_true, Bool.and_eq_true, decide_eq_true_eq] at *
  omega

/-- The sort comparator is total. -/
theorem rideLe_total (a b : Ride) : (rideLe a b || rideLe b a) = true := by
  simp only [rideLe, Bool.or_eq_true, Bool.and_eq_true, decide_eq_true_eq]
  omega

/-- A comparator verdict is exactly the lexicographic ordering. -/
theorem rideLe_iff_lexProp (a b : Ride) : rideLe a b = true ↔ lexProp a b := by
  simp only [rideLe, lexProp, Bool.or_eq_true, Bool.and_eq_true, decide_eq_true_eq]

/-- The sorted rides list is pairwise lexicographically ordered. -/
theorem sortRides_pairwise (rides : List Ride) :
    List.Pairwise lexProp (sortRides rides) :=
  (List.sorted_mergeSort rideLe_trans rideLe_total rides).imp
    fun hab => (rideLe_iff_lexProp _ _).mp hab

/-- The sorted rides list is a permutation of the input. -/
theorem sortRides_perm (rides : List Ride) : (sortRides rides).Perm rides :=
  List.mergeSort_perm rides rideLe

/-- C10: assignDriversToRides reorders the caller's rides array in place into
ascending (date, startTime) order — after the call the caller's array is a
permutation of the original ride records in sorted order; the records
themselves (and the driver records, which the engine only reads) are not
modified. -/
theorem claim10_sort_in_place (O : Oracle) (cache0 : Cache) (drivers : List Driver)
    (ridesData : List Ride) :
    (assignDriversToRides O cache0 drivers ridesData).ridesAfter = sortRides ridesData ∧
    (sortRides ridesData).Perm ridesData ∧
    List.Pairwise lexProp (sortRides ridesData) :=
  ⟨rfl, sortRides_perm ridesData, sortRides_pairwise ridesData⟩

/-! ### Claim C5: busyUntil monotonicity -/

/-- A driver whose cost got evaluated passed the busy-until check. -/
theorem evalDriver_some_busy_le (O : Oracle) (r : Ride) (d : Driver)
    (av : Availability) (asg : Assignment) (cache : Cache) (c : ℚ)
    (h : (evalDriver O r d av asg cache).cost = some c) :
    av.busyUntil ≤ r.startTime := by
  have h2 := (evalDriver_cost_isSome_iff O r d av asg cache).mp (by rw [h]; rfl)
  have h3 := h2.2.1
  simp only [isTimeAfter, decide_eq_false_iff_not, Int.not_lt] at h3
  exact h3

/-- What the best-pair update can produce: the old pair, or the new driver with
its evaluated cost. -/
theorem updateBest_eq_some (cost : Option ℚ) (id : String) (best : Option (String × ℚ))
    (p : String × ℚ) (h : updateBest cost id best = some p) :
    best = some p ∨ ∃ c, cost = some c ∧ p = (id, c) := by
  rcases cost with _ | c <;> rcases best with _ | p0 <;>
    simp_all [updateBest]
  split_ifs at h <;> simp_all

/-- Whatever driver the inner loop selects passed the busy-until check. -/
theorem chooseBest_busy_le (O : Oracle) (r : Ride) (avail : String → Availability)
    (assignments : List Assignment) :
    ∀ (ds : List Driver) (best0 : Option (String × ℚ)) (cache : Cache) (saved : ℕ),
      (∀ p, best0 = some p → (avail p.1).busyUntil ≤ r.startTime) →
      ∀ p, (chooseBest O r avail assignments ds best0 cache saved).best = some p →
        (avail p.1).busyUntil ≤ r.startTime := by
  intro ds
  induction ds with
  | nil =>
    intro best0 cache saved h0 p hp
    exact h0 p hp
  | cons d ds ih =>
    intro best0 cache saved h0 p hp
    rw [chooseBest] at hp
    refine ih _ _ _ ?_ p hp
    intro q hq
    rcases updateBest_eq_some _ _ _ _ hq with h | ⟨c, hc, hq'⟩
    · exact h0 q h
    · subst hq'
      exact evalDriver_some_busy_le O r d _ _ _ c hc

/-- One ride step never moves any driver's busyUntil backwards, provided the
ride is not inverted. -/
theorem processRide_busy_mono (O : Oracle) (drivers : List Driver) (st : EngineState)
    (r : Ride) (hr : r.startTime ≤ r.endTime) (id : String) :
    (st.avail id).busyUntil ≤ ((processRide O drivers st r).avail id).busyUntil := by
  unfold processRide
  rcases hch : (chooseBest O r st.avail st.assignments drivers none st.cache
      st.apiCallsSaved).best with _ | p
  · simp only [hch]
    exact le_refl _
  · have hble : (st.avail p.1).busyUntil ≤ r.startTime :=
      chooseBest_busy_le O r st.avail st.assignments drivers none st.cache
        st.apiCallsSaved (by intro q hq; cases hq) p hch
    simp only [hch]
    split_ifs with hempty
    · exact le_refl _
    · by_cases hid : id = p.1
      · subst hid
        simp only [if_pos rfl, if_true, commitAvail]
        omega
      · simp only [if_neg hid]
        exact le_refl _

/-- Running the loop over an appended list runs it over each part in turn. -/
theorem runRides_append (O : Oracle) (drivers : List Driver) (st : EngineState)
    (l1 l2 : List Ride) :
    runRides O drivers st (l1 ++ l2) = runRides O drivers (runRides O drivers st l1) l2 := by
  induction l1 generalizing st with
  | nil => rfl
  | cons r rs ih => rw [List.cons_append, runRides, runRides, ih]

/-- C5 (amended): provided no ride is inverted (endTime at or after startTime),
every driver's busyUntil is non-decreasing along the chronological processing
order, and a successful assignment sets the committed driver's busyUntil to the
assigned ride's endTime.  (An inverted ride can move busyUntil backwards, which
is what forces the proviso.) -/
theorem claim5_busy_monotone_amended (O : Oracle) (cache0 : Cache) (drivers : List Driver)
    (ridesData : List Ride) (h : ∀ r ∈ ridesData, r.startTime ≤ r.endTime) :
    (∀ (n : ℕ) (id : String),
      ((runRides O drivers (initState cache0 drivers)
          ((sortRides ridesData).take n)).avail id).busyUntil
        ≤ ((runRides O drivers (initState cache0 drivers)
          ((sortRides ridesData).take (n + 1))).avail id).busyUntil)
    ∧ ∀ (st : EngineState) (r : Ride) (p : String × ℚ),
        (chooseBest O r st.avail st.assignments drivers none st.cache
          st.apiCallsSaved).best = some p →
        p.1 ≠ "" →
        ((processRide O drivers st r).avail p.1).busyUntil = r.endTime := by
  constructor
  · intro n id
    rcases hlt : (sortRides ridesData)[n]? with _ | r
    · rw [List.take_succ, hlt]
      simp
    · rw [List.take_succ, hlt, runRides_append]
      have hmem : r ∈ ridesData :=
        (sortRides_perm ridesData).mem_iff.mp (List.getElem?_mem hlt)
      simpa [runRides] using
        processRide_busy_mono O drivers _ r (h r hmem) id
  · intro st r p hch hne
    unfold processRide
    simp only [hch]
    rw [if_neg hne]
    simp [commitAvail]

/-- Witness for C5 at a concrete input: one unrestricted driver, one
well-formed ride. -/
theorem claim5_witness :
    (∀ r ∈ [rideMorning], r.startTime ≤ r.endTime) ∧
    ((∀ (n : ℕ) (id : String),
      ((runRides oracleZero [driverFuelOne] (initState [] [driverFuelOne])
          ((sortRides [rideMorning]).take n)).avail id).busyUntil
        ≤ ((runRides oracleZero [driverFuelOne] (initState [] [driverFuelOne])
          ((sortRides [rideMorning]).take (n + 1))).avail id).busyUntil)
    ∧ ∀ (st : EngineState) (r : Ride) (p : String × ℚ),
        (chooseBest oracleZero r st.avail st.assignments [driverFuelOne] none st.cache
          st.apiCallsSaved).best = some p →
        p.1 ≠ "" →
        ((processRide oracleZero [driverFuelOne] st r).avail p.1).busyUntil = r.endTime) :=
  ⟨by norm_num [rideMorning],
   claim5_busy_monotone_amended oracleZero [] [driverFuelOne] [rideMorning]
     (by norm_num [rideMorning])⟩

/-- Driver with a defined shiftStart of 10:00 but no shiftEnd: JS initialises
busyUntil from shiftStart, and `isDriverOnShift` passes because shiftEnd is
missing. -/
def driverShiftOpen : Driver := ⟨"d1", "X", ⟨0, 0⟩, 4, 0, some 600, none, none, []⟩

/-- A ride starting 09:00, before driverShiftOpen's initial busyUntil. -/
def rideEarly : Ride := ⟨"r2", 3, 540, 570, "A", ⟨0, 0⟩, "B", ⟨0, 0⟩, 1⟩

/-- An inverted ride: 10:00 start, 09:00 end. -/
def rideInverted : Ride := ⟨"r1", 0, 600, 540, "A", ⟨0, 0⟩, "B", ⟨0, 0⟩, 1⟩

/-- Counterexample to C5 as stated: assigning the inverted ride moves the
driver's busyUntil from 600 (initial, from shiftStart) back to 540, and the
assignment did commit (the ride id was accepted). -/
theorem claim5_counterexample :
    ((initState [] [driverShiftOpen]).avail "d1").busyUntil = 600 ∧
    ((runRides oracleZero [driverShiftOpen] (initState [] [driverShiftOpen])
        [rideInverted]).avail "d1").busyUntil = 540 ∧
    (runRides oracleZero [driverShiftOpen] (initState [] [driverShiftOpen])
        [rideInverted]).assignments
      = [⟨"d1", ["r1"], fun dt => if dt = 0 then -60 else 0⟩] ∧
    (540 : ℤ) < 600 := by
  refine ⟨?_, ?_, ?_, by norm_num⟩ <;>
    norm_num [runRides, processRide, commitAssign, commitAvail, chooseBest, updateBest, evalDriver,
      resolveEngineDistance, getDistanceFromOSRM, cacheLookup, cacheInsert,
      isTimeAfter, addMinutesToTime, getTimeDifferenceInMinutes, isDriverOnShift,
      isAddressBlocked, wouldExceedDailyHours, isTimeInRange, updateFirstAssign,
      initState, initAvailMap, initialAvailability, driverShiftOpen, rideInverted,
      oracleZero] <;>
    rw [if_neg (show ¬ ("d1" : String) = "" by decide)] <;>
    norm_num

/-! ### Claim C9: no reset between dates; lastActiveDate is write-only -/

/-- A driver whose busyUntil is past the ride's start is skipped outright. -/
theorem evalDriver_busy_skip (O : Oracle) (r : Ride) (d : Driver) (av : Availability)
    (asg : Assignment) (cache : Cache) (h : r.startTime < av.busyUntil) :
    (evalDriver O r d av asg cache).cost = none := by
  have hb : isTimeAfter av.busyUntil r.startTime = true := by
    simp [isTimeAfter, h]
  unfold evalDriver
  split_ifs with h1 <;> simp_all

/-- The inner loop never selects a driver whose availability is busy past the
ride's start, whatever the date of the ride or of the driver's last activity. -/
theorem chooseBest_busy_not_selected (O : Oracle) (r : Ride)
    (avail : String → Availability) (assignments : List Assignment) (id : String)
    (h : r.startTime < (avail id).busyUntil) :
    ∀ (ds : List Driver) (best0 : Option (String × ℚ)) (cache : Cache) (saved : ℕ),
      (∀ c, best0 ≠ some (id, c)) →
      ∀ c, (chooseBest O r avail assignments ds best0 cache saved).best
        ≠ some (id, c) := by
  intro ds
  induction ds with
  | nil =>
    intro best0 cache saved h0 c
    exact h0 c
  | cons d ds ih =>
    intro best0 cache saved h0 c
    rw [chooseBest]
    refine ih _ _ _ ?_ c
    intro c' hq
    rcases updateBest_eq_some _ _ _ _ hq with hcase | ⟨c2, hc2, hp⟩
    · exact h0 c' hcase
    · have hid : d.driverId = id := (congrArg Prod.fst hp).symm
      rw [hid] at hc2
      rw [evalDriver_busy_skip O r d (avail id) _ _ h] at hc2
      cases hc2

/-- updateFirstAssign leaves `find?` for a different driver id unchanged when
the update preserves the entry's driver id. -/
theorem updateFirstAssign_find_other (asgs : List Assignment) (tgt id : String)
    (f : Assignment → Assignment) (hf : ∀ a, (f a).driverId = a.driverId)
    (hne : tgt ≠ id) :
    ((updateFirstAssign asgs tgt f).find? fun a => a.driverId == id)
      = asgs.find? fun a => a.driverId == id := by
  induction asgs with
  | nil => rfl
  | cons a rest ih =>
    by_cases ha : a.driverId = tgt
    · rw [updateFirstAssign, if_pos ha]
      have : ((f a).driverId == id) = false := by
        simp [hf a, ha, hne]
      rw [List.find?, this, List.find?, show (a.driverId == id) = false by simp [ha, hne]]
    · rw [updateFirstAssign, if_neg ha]
      rcases hpred : (a.driverId == id) with _ | _
      · rw [List.find?, hpred, List.find?, hpred]
        exact ih
      · rw [List.find?, hpred, List.find?, hpred]

/-- evalDriver never reads `lastActiveDate`. -/
theorem evalDriver_lastActiveDate_irrel (O : Oracle) (r : Ride) (d : Driver)
    (av : Availability) (asg : Assignment) (cache : Cache) (o : Option ℕ) :
    evalDriver O r d { av with lastActiveDate := o } asg cache
      = evalDriver O r d av asg cache := rfl

/-- C9: availability is never reset between dates — the busy-until gate
compares pure clock times with no date involved, so a driver whose current
busyUntil is past a later ride's startTime is skipped for it no matter how the
dates relate; a ride that commits no assignment to a driver leaves that
driver's availability (and its assignment entry) untouched, and a commit
overwrites availability with the ride's end state, recording `lastActiveDate`;
`lastActiveDate` is never read by any check (evalDriver is invariant under
it). -/
theorem claim9_no_reset_and_unread (O : Oracle) (drivers : List Driver)
    (st : EngineState) (r : Ride) (id : String)
    (h : r.startTime < (st.avail id).busyUntil) :
    (∀ c, (chooseBest O r st.avail st.assignments drivers none st.cache
        st.apiCallsSaved).best ≠ some (id, c)) ∧
    (processRide O drivers st r).avail id = st.avail id ∧
    ((processRide O drivers st r).assignments.find? fun a => a.driverId == id)
      = (st.assignments.find? fun a => a.driverId == id) ∧
    (∀ (av : Availability) (o : Option ℕ) (d : Driver) (asg : Assignment)
        (cache : Cache),
      evalDriver O r d { av with lastActiveDate := o } asg cache
        = evalDriver O r d av asg cache) ∧
    (∀ p, (chooseBest O r st.avail st.assignments drivers none st.cache
        st.apiCallsSaved).best = some p → p.1 ≠ "" →
      (processRide O drivers st r).avail p.1
        = ⟨r.endTime, r.endPoint, r.endPoint_coords, r.endTime, some r.date⟩) := by
  have hnot := chooseBest_busy_not_selected O r st.avail st.assignments id h
    drivers none st.cache st.apiCallsSaved (by intro c hc; cases hc)
  refine ⟨hnot, ?_, ?_, ?_, ?_⟩
  · unfold processRide
    rcases hch : (chooseBest O r st.avail st.assignments drivers none st.cache
        st.apiCallsSaved).best with _ | p
    · simp only [hch]
    · simp only [hch]
      split_ifs with hempty
      · rfl
      · have hpid : id ≠ p.1 := by
          intro hcontra
          exact hnot p.2 (by rw [hch]; subst hcontra; rw [Prod.mk.eta])
        simp only [if_neg hpid]
  · unfold processRide
    rcases hch : (chooseBest O r st.avail st.assignments drivers none st.cache
        st.apiCallsSaved).best with _ | p
    · simp only [hch]
    · simp only [hch]
      split_ifs with hempty
      · rfl
      · have hpid : p.1 ≠ id := by
          intro hcontra
          exact hnot p.2 (by rw [hch]; subst hcontra; rw [Prod.mk.eta])
        exact updateFirstAssign_find_other st.assignments p.1 id _
          (by intro a; rfl) hpid
  · intro av o d asg cache
    exact evalDriver_lastActiveDate_irrel O r d av asg cache o
  · intro p hch hne
    unfold processRide
    simp only [hch]
    rw [if_neg hne]
    simp [commitAvail]

/-- Witness for C9 at a concrete input: the driver with shiftStart 10:00 is
busy until 600 initially, and the ride starts at 09:00 < 10:00. -/
theorem claim9_witness :
    rideEarly.startTime < (((initState [] [driverShiftOpen]).avail "d1").busyUntil) ∧
    ((∀ c, (chooseBest oracleZero rideEarly (initState [] [driverShiftOpen]).avail
        (initState [] [driverShiftOpen]).assignments [driverShiftOpen] none
        (initState [] [driverShiftOpen]).cache
        (initState [] [driverShiftOpen]).apiCallsSaved).best ≠ some ("d1", c)) ∧
    (processRide oracleZero [driverShiftOpen] (initState [] [driverShiftOpen])
        rideEarly).avail "d1" = (initState [] [driverShiftOpen]).avail "d1" ∧
    ((processRide oracleZero [driverShiftOpen] (initState [] [driverShiftOpen])
        rideEarly).assignments.find? fun a => a.driverId == "d1")
      = ((initState [] [driverShiftOpen]).assignments.find? fun a => a.driverId == "d1") ∧
    (∀ (av : Availability) (o : Option ℕ) (d : Driver) (asg : Assignment)
        (cache : Cache),
      evalDriver oracleZero rideEarly d { av with lastActiveDate := o } asg cache
        = evalDriver oracleZero rideEarly d av asg cache) ∧
    (∀ p, (chooseBest oracleZero rideEarly (initState [] [driverShiftOpen]).avail
        (initState [] [driverShiftOpen]).assignments [driverShiftOpen] none
        (initState [] [driverShiftOpen]).cache
        (initState [] [driverShiftOpen]).apiCallsSaved).best = some p → p.1 ≠ "" →
      (processRide oracleZero [driverShiftOpen] (initState [] [driverShiftOpen])
          rideEarly).avail p.1
        = ⟨rideEarly.endTime, rideEarly.endPoint, rideEarly.endPoint_coords,
            rideEarly.endTime, some rideEarly.date⟩)) :=
  ⟨by norm_num [rideEarly, initState, initAvailMap, initialAvailability, driverShiftOpen],
   claim9_no_reset_and_unread oracleZero [driverShiftOpen]
     (initState [] [driverShiftOpen]) rideEarly "d1"
     (by norm_num [rideEarly, initState, initAvailMap, initialAvailability, driverShiftOpen])⟩

/-! ### Claim C8: midnight-crossing and inverted rides -/

/-- A driver whose cost got evaluated passed the shift check. -/
theorem evalDriver_some_onShift (O : Oracle) (r : Ride) (d : Driver)
    (av : Availability) (asg : Assignment) (cache : Cache) (c : ℚ)
    (h : (evalDriver O r d av asg cache).cost = some c) :
    isDriverOnShift d r.startTime r.endTime = true :=
  ((evalDriver_cost_isSome_iff O r d av asg cache).mp (by rw [h]; rfl)).2.2.1

/-- Whatever driver the inner loop selects belongs to the driver list and
passed the shift check for the ride. -/
theorem chooseBest_some_shift (O : Oracle) (r : Ride) (avail : String → Availability)
    (assignments : List Assignment) (dsFull : List Driver) :
    ∀ (ds : List Driver), (∀ d ∈ ds, d ∈ dsFull) →
    ∀ (best0 : Option (String × ℚ)) (cache : Cache) (saved : ℕ),
      (∀ p, best0 = some p → ∃ d ∈ dsFull, d.driverId = p.1 ∧
        isDriverOnShift d r.startTime r.endTime = true) →
      ∀ p, (chooseBest O r avail assignments ds best0 cache saved).best = some p →
        ∃ d ∈ dsFull, d.driverId = p.1 ∧
          isDriverOnShift d r.startTime r.endTime = true := by
  intro ds
  induction ds with
  | nil =>
    intro _ best0 cache saved h0 p hp
    exact h0 p hp
  | cons d ds ih =>
    intro hsub best0 cache saved h0 p hp
    rw [chooseBest] at hp
    refine ih (fun x hx => hsub x (List.mem_cons_of_mem d hx)) _ _ _ ?_ p hp
    intro q hq
    rcases updateBest_eq_some _ _ _ _ hq with hcase | ⟨c, hc, hq'⟩
    · exact h0 q hcase
    · subst hq'
      exact ⟨d, hsub d (List.mem_cons_self _ _), rfl,
        evalDriver_some_onShift O r d _ _ _ c hc⟩

/-- Membership after updating the first matching assignment entry. -/
theorem updateFirstAssign_mem (asgs : List Assignment) (tgt : String)
    (f : Assignment → Assignment) :
    ∀ a' ∈ updateFirstAssign asgs tgt f, a' ∈ asgs ∨ ∃ a, a ∈ asgs ∧ a' = f a := by
  induction asgs with
  | nil => intro a' h; cases h
  | cons a rest ih =>
    intro a' h
    by_cases ha : a.driverId = tgt
    · rw [updateFirstAssign, if_pos ha] at h
      rcases List.mem_cons.mp h with h | h
      · exact Or.inr ⟨a, List.mem_cons_self _ _, h⟩
      · exact Or.inl (List.mem_cons_of_mem a h)
    · rw [updateFirstAssign, if_neg ha] at h
      rcases List.mem_cons.mp h with h | h
      · exact Or.inl (h ▸ List.mem_cons_self _ _)
      · rcases ih a' h with h2 | ⟨b, hb, hfb⟩
        · exact Or.inl (List.mem_cons_of_mem a h2)
        · exact Or.inr ⟨b, List.mem_cons_of_mem a hb, hfb⟩

/-- Invariant: every accepted ride id is the id of an already-processed ride
for which some driver of the list passed the shift check. -/
def RideIdsWitnessed (drivers : List Driver) (processed : List Ride)
    (asgs : List Assignment) : Prop :=
  ∀ a ∈ asgs, ∀ id ∈ a.rideIds, ∃ x ∈ processed, x.rid = id ∧
    ∃ d ∈ drivers, isDriverOnShift d x.startTime x.endTime = true

/-- One ride step preserves the witnessing invariant. -/
theorem processRide_witnessed (O : Oracle) (drivers : List Driver) (st : EngineState)
    (r : Ride) (processed : List Ride)
    (hinv : RideIdsWitnessed drivers processed st.assignments) :
    RideIdsWitnessed drivers (processed ++ [r])
      (processRide O drivers st r).assignments := by
  have hmono : RideIdsWitnessed drivers (processed ++ [r]) st.assignments := by
    intro a ha id hid
    rcases hinv a ha id hid with ⟨x, hx, hxr, hd⟩
    exact ⟨x, List.mem_append_left _ hx, hxr, hd⟩
  unfold processRide
  rcases hch : (chooseBest O r st.avail st.assignments drivers none st.cache
      st.apiCallsSaved).best with _ | p
  · simp only [hch]
    exact hmono
  · simp only [hch]
    split_ifs with hempty
    · exact hmono
    · intro a ha id hid
      rcases updateFirstAssign_mem st.assignments p.1 _ a ha with hmem | ⟨b, hb, hfb⟩
      · exact hmono a hmem id hid
      · subst hfb
        simp only [commitAssign, List.mem_append, List.mem_singleton] at hid
        rcases hid with hid | hid
        · exact hmono b hb id hid
        · subst hid
          rcases chooseBest_some_shift O r st.avail st.assignments drivers drivers
              (fun d hd => hd) none st.cache st.apiCallsSaved
              (by intro q hq; cases hq) p hch with ⟨d, hd, -, hshift⟩
          exact ⟨r, List.mem_append_right _ (List.mem_cons_self _ _), rfl, d, hd, hshift⟩

/-- The whole loop preserves the witnessing invariant. -/
theorem runRides_witnessed (O : Oracle) (drivers : List Driver) :
    ∀ (rs : List Ride) (st : EngineState) (processed : List Ride),
      RideIdsWitnessed drivers processed st.assignments →
      RideIdsWitnessed drivers (processed ++ rs)
        (runRides O drivers st rs).assignments := by
  intro rs
  induction rs with
  | nil =>
    intro st processed h
    simpa using h
  | cons r rs ih =>
    intro st processed h
    rw [runRides]
    have h2 := processRide_witnessed O drivers st r processed h
    have h3 := ih (processRide O drivers st r) (processed ++ [r]) h2
    simpa using h3

/-- C8 (amended): no dedicated check drops midnight-crossing or inverted
rides — they face exactly the ordinary six feasibility checks, and can be
assigned (see the counterexample); what does hold is that every accepted ride
id belongs to a ride some driver was on shift for, so when every driver has a
defined shift window ending before 24:00, a ride whose endTime reaches past
24:00 never appears in any driver's rideIds. -/
theorem claim8_midnight_inverted_amended (O : Oracle) (cache0 : Cache)
    (drivers : List Driver) (ridesData : List Ride)
    (hsh : ∀ d ∈ drivers, ∃ lo hi, d.shiftStart = some lo ∧ d.shiftEnd = some hi ∧
      hi < 1440) :
    ∀ a ∈ (assignDriversToRides O cache0 drivers ridesData).assignments,
      ∀ id ∈ a.rideIds, ∃ x ∈ ridesData, x.rid = id ∧ x.endTime < 1440 := by
  intro a ha id hid
  have hrun := runRides_witnessed O drivers (sortRides ridesData)
    (initState cache0 drivers) []
    (by
      intro b hb i hi
      rcases List.mem_map.mp hb with ⟨d, -, hd⟩
      rw [← hd] at hi
      cases hi)
  simp only [List.nil_append] at hrun
  rcases List.mem_map.mp ha with ⟨b, hbmem, hba⟩
  have hbids : b.rideIds = a.rideIds := by rw [← hba]
  have hb := List.mem_of_mem_filter hbmem
  rcases hrun b hb id (hbids ▸ hid) with ⟨x, hx, hxid, d, hd, hshift⟩
  rcases hsh d hd with ⟨lo, hi', hlo, hhi, hbound⟩
  have hend : x.endTime ≤ hi' := by
    unfold isDriverOnShift at hshift
    rw [hlo, hhi] at hshift
    simp only [isTimeInRange, Bool.and_eq_true, decide_eq_true_eq] at hshift
    exact hshift.2.2
  exact ⟨x, (sortRides_perm ridesData).mem_iff.mp hx, hxid, by omega⟩

/-- Driver with the full-day shift 08:00 to 20:00. -/
def driverShifted : Driver := ⟨"d1", "X", ⟨0, 0⟩, 4, 0, some 480, some 1200, none, []⟩

/-- A ride whose computed end crosses midnight (24:10, minute 1450). -/
def rideCrossMidnight : Ride := ⟨"r1", 0, 1430, 1450, "A", ⟨0, 0⟩, "B", ⟨0, 0⟩, 1⟩

/-- Witness for C8's amended statement at a concrete input: one shifted driver
(shift end 20:00 < 24:00), one midnight-crossing ride. -/
theorem claim8_witness :
    (∀ d ∈ [driverShifted], ∃ lo hi, d.shiftStart = some lo ∧ d.shiftEnd = some hi ∧
      hi < 1440) ∧
    ∀ a ∈ (assignDriversToRides oracleZero [] [driverShifted]
        [rideCrossMidnight]).assignments,
      ∀ id ∈ a.rideIds, ∃ x ∈ [rideCrossMidnight], x.rid = id ∧ x.endTime < 1440 :=
  ⟨by
    intro d hd
    rcases List.mem_singleton.mp hd with rfl
    exact ⟨480, 1200, rfl, rfl, by norm_num⟩,
   claim8_midnight_inverted_amended oracleZero [] [driverShifted] [rideCrossMidnight]
     (by
       intro d hd
       rcases List.mem_singleton.mp hd with rfl
       exact ⟨480, 1200, rfl, rfl, by norm_num⟩)⟩

/-- Counterexample to C8 as stated: the inverted ride `rideInverted` (end 09:00
before start 10:00) is not dropped — the shiftless driver is assigned it, so
its id appears in the output and its negative cost lowers totalCost. -/
theorem claim8_counterexample :
    rideInverted.endTime < rideInverted.startTime ∧
    (assignDriversToRides oracleZero [] [driverFuelOne] [rideInverted]).assignments
      = [⟨"d1", ["r1"]⟩] := by
  refine ⟨by norm_num [rideInverted], ?_⟩
  norm_num [assignDriversToRides, sortRides, initState, initAvailMap,
    initialAvailability, runRides, processRide, commitAssign, commitAvail, chooseBest, updateBest, evalDriver,
    resolveEngineDistance, getDistanceFromOSRM, cacheLookup, cacheInsert,
    isTimeAfter, addMinutesToTime, getTimeDifferenceInMinutes, isDriverOnShift,
    isAddressBlocked, wouldExceedDailyHours, updateFirstAssign, round2,
    driverFuelOne, rideInverted, oracleZero]
  rw [if_neg (show ¬ ("d1" : String) = "" by decide)]
  norm_num [List.filter]

/-! ### Claim C2: minimum-cost selection and the total -/

/-- The per-driver evaluation outcomes for one ride, in driver-list order, with
the cache threaded exactly as the inner loop threads it. -/
def evalList (O : Oracle) (r : Ride) (avail : String → Availability)
    (assignments : List Assignment) : List Driver → Cache → List (String × Option ℚ)
  | [], _ => []
  | d :: ds, cache =>
    let res := evalDriver O r d (avail d.driverId)
      ((assignments.find? fun a => a.driverId == d.driverId).getD
        ⟨d.driverId, [], fun _ => 0⟩) cache
    (d.driverId, res.cost) :: evalList O r avail assignments ds res.cache

/-- Modelled from claim C2's words: the first entry holding the strict minimum
among the evaluated costs — a later entry replaces the running choice only when
its cost is strictly smaller. -/
def firstMin : List (String × Option ℚ) → Option (String × ℚ)
  | [] => none
  | e :: rest =>
    match e.2, firstMin rest with
    | none, b => b
    | some c, none => some (e.1, c)
    | some c, some p => if p.2 < c then some p else some (e.1, c)

/-- Left-biased combination of two candidate minima. -/
def mergeBest (x y : Option (String × ℚ)) : Option (String × ℚ) :=
  match x, y with
  | none, b => b
  | some p, none => some p
  | some p, some q => if q.2 < p.2 then some q else some p

/-- The best-pair update is the left-biased combination with the new entry on
the right. -/
theorem updateBest_eq_mergeBest (cost : Option ℚ) (id : String)
    (best : Option (String × ℚ)) :
    updateBest cost id best = mergeBest best (cost.map fun c => (id, c)) := by
  rcases cost with _ | c <;> rcases best with _ | p <;> rfl

/-- firstMin of a cons is the head entry combined with firstMin of the tail. -/
theorem firstMin_cons (e : String × Option ℚ) (rest : List (String × Option ℚ)) :
    firstMin (e :: rest)
      = mergeBest (e.2.map fun c => (e.1, c)) (firstMin rest) := by
  rcases he : e.2 with _ | c <;> rcases hf : firstMin rest with _ | p <;>
    simp [firstMin, mergeBest, he, hf]

/-- Left-biased combination is associative. -/
theorem mergeBest_assoc (a b c : Option (String × ℚ)) :
    mergeBest (mergeBest a b) c = mergeBest a (mergeBest b c) := by
  rcases a with _ | p
  · rcases b with _ | q <;> rfl
  · rcases b with _ | q
    · rfl
    · rcases c with _ | s
      · simp only [mergeBest]
        split_ifs <;> rfl
      · by_cases h1 : q.2 < p.2 <;> by_cases h2 : s.2 < q.2 <;>
          simp only [mergeBest, h1, h2, if_true, if_false, ite_true, ite_false,
            eq_self_iff_true] <;>
          split_ifs <;> first | rfl | (exfalso; linarith)

/-- The inner loop computes exactly the first strict minimum of the evaluation
outcomes, combined left-biasedly with whatever initial best it was handed. -/
theorem chooseBest_best_eq (O : Oracle) (r : Ride) (avail : String → Availability)
    (assignments : List Assignment) :
    ∀ (ds : List Driver) (best0 : Option (String × ℚ)) (cache : Cache) (saved : ℕ),
      (chooseBest O r avail assignments ds best0 cache saved).best
        = mergeBest best0 (firstMin (evalList O r avail assignments ds cache)) := by
  intro ds
  induction ds with
  | nil =>
    intro best0 cache saved
    rcases best0 with _ | p <;> rfl
  | cons d ds ih =>
    intro best0 cache saved
    rw [chooseBest, evalList, ih, updateBest_eq_mergeBest, firstMin_cons,
      mergeBest_assoc]

/-- When firstMin finds nothing, no entry was evaluated. -/
theorem firstMin_none (l : List (String × Option ℚ)) (h : firstMin l = none) :
    ∀ e ∈ l, e.2 = none := by
  induction l with
  | nil => intro e he; cases he
  | cons e rest ih =>
    intro x hx
    rcases he : e.2 with _ | c
    · rcases List.mem_cons.mp hx with rfl | hx'
      · exact he
      · rw [firstMin, he] at h
        exact ih h x hx'
    · rw [firstMin, he] at h
      rcases hf : firstMin rest with _ | p <;> simp only [hf] at h
      · cases h
      · split_ifs at h

/-- Modelled from claim C2's words: whatever pair firstMin returns splits the
list into a strict-greater prefix (every earlier evaluated cost is strictly
larger — the first encountered minimum wins), the chosen entry itself, and a
tail over which it is still a (weak) minimum; in particular the chosen cost is
minimal among all evaluated costs. -/
theorem firstMin_charact (l : List (String × Option ℚ)) (p : String × ℚ)
    (h : firstMin l = some p) :
    (∀ e ∈ l, ∀ c, e.2 = some c → p.2 ≤ c) ∧
    ∃ l1 l2, l = l1 ++ (p.1, some p.2) :: l2 ∧
      (∀ e ∈ l1, ∀ c, e.2 = some c → p.2 < c) := by
  induction l generalizing p with
  | nil => cases h
  | cons e rest ih =>
    rcases he : e.2 with _ | c
    · rw [firstMin, he] at h
      rcases ih p h with ⟨hmin, l1, l2, hsplit, hstrict⟩
      refine ⟨?_, (e :: l1), l2, by rw [hsplit]; rfl, ?_⟩
      · intro x hx c hc
        rcases List.mem_cons.mp hx with rfl | hx'
        · rw [he] at hc; cases hc
        · exact hmin x hx' c hc
      · intro x hx c hc
        rcases List.mem_cons.mp hx with rfl | hx'
        · rw [he] at hc; cases hc
        · exact hstrict x hx' c hc
    · rw [firstMin, he] at h
      rcases hf : firstMin rest with _ | q <;> simp only [hf] at h
      · simp only [Option.some.injEq] at h
        subst h
        have hall := firstMin_none rest hf
        refine ⟨?_, [], rest, by rw [← he]; rfl, by intro x hx c hc; cases hx⟩
        intro x hx c hc
        rcases List.mem_cons.mp hx with rfl | hx'
        · rw [he] at hc
          simp only [Option.some.injEq] at hc
          subst hc
          exact le_refl _
        · rw [hall x hx'] at hc; cases hc
      · rcases ih q hf with ⟨hminq, l1, l2, hsplit, hstrict⟩
        split_ifs at h with hlt
        · simp only [Option.some.injEq] at h
          subst h
          refine ⟨?_, (e :: l1), l2, by rw [hsplit]; rfl, ?_⟩
          · intro x hx c' hc'
            rcases List.mem_cons.mp hx with rfl | hx'
            · rw [he] at hc'
              have := Option.some.inj hc'
              subst this
              exact le_of_lt hlt
            · exact hminq x hx' c' hc'
          · intro x hx c' hc'
            rcases List.mem_cons.mp hx with rfl | hx'
            · rw [he] at hc'
              have := Option.some.inj hc'
              subst this
              exact hlt
            · exact hstrict x hx' c' hc'
        · simp only [Option.some.injEq] at h
          subst h
          refine ⟨?_, [], rest, by rw [← he]; rfl, by intro x hx c' hc'; cases hx⟩
          intro x hx c' hc'
          rcases List.mem_cons.mp hx with rfl | hx'
          · rw [he] at hc'
            simp only [Option.some.injEq] at hc'
            subst hc'
            exact le_refl _
          · have := hminq x hx' c' hc'
            simp only at this ⊢
            linarith [not_lt.mp hlt]

/-- The cost committed for each ride of the list, in processing order (one
entry per ride that got an assignment). -/
def committedCosts (O : Oracle) (drivers : List Driver) :
    EngineState → List Ride → List ℚ
  | _, [] => []
  | st, r :: rs =>
    match (chooseBest O r st.avail st.assignments drivers none st.cache
        st.apiCallsSaved).best with
    | none => committedCosts O drivers (processRide O drivers st r) rs
    | some p =>
      if p.1 = "" then committedCosts O drivers (processRide O drivers st r) rs
      else p.2 :: committedCosts O drivers (processRide O drivers st r) rs

/-- One ride step adds the committed cost (if any) to the running total. -/
theorem processRide_totalCost (O : Oracle) (drivers : List Driver)
    (st : EngineState) (r : Ride) :
    (processRide O drivers st r).totalCost =
      match (chooseBest O r st.avail st.assignments drivers none st.cache
          st.apiCallsSaved).best with
      | none => st.totalCost
      | some p => if p.1 = "" then st.totalCost else st.totalCost + p.2 := by
  unfold processRide
  rcases hch : (chooseBest O r st.avail st.assignments drivers none st.cache
      st.apiCallsSaved).best with _ | p <;> simp only [hch]
  split_ifs <;> rfl

/-- The loop's final running total is the initial total plus the sum of the
committed costs. -/
theorem runRides_totalCost (O : Oracle) (drivers : List Driver) :
    ∀ (rs : List Ride) (st : EngineState),
      (runRides O drivers st rs).totalCost
        = st.totalCost + (committedCosts O drivers st rs).sum := by
  intro rs
  induction rs with
  | nil => intro st; simp [runRides, committedCosts]
  | cons r rs ih =>
    intro st
    rw [runRides, committedCosts, ih, processRide_totalCost]
    rcases hch : (chooseBest O r st.avail st.assignments drivers none st.cache
        st.apiCallsSaved).best with _ | p <;> simp only [hch]
    split_ifs
    · rfl
    · rw [List.sum_cons]
      ring

/-- Every value stored in a cache is nonnegative. -/
def cacheNonneg (c : Cache) : Prop := ∀ kv ∈ c, (0 : ℚ) ≤ kv.2

/-- The oracle only produces nonnegative distances. -/
def oracleNonneg (O : Oracle) : Prop :=
  (∀ a b, 0 ≤ O.haversine a b) ∧
  (∀ a b m, O.osrm a b = OsrmOutcome.success m → 0 ≤ m)

/-- A successful cache lookup returns a stored value. -/
theorem cacheLookup_some_mem (c : Cache) (k : Coords × Coords) (v : ℚ)
    (h : cacheLookup c k = some v) : ∃ kv ∈ c, kv.2 = v := by
  induction c with
  | nil => cases h
  | cons kv rest ih =>
    rw [cacheLookup] at h
    split_ifs at h with hk
    · exact ⟨kv, List.mem_cons_self _ _, Option.some.inj h⟩
    · rcases ih h with ⟨kv', hmem, hval⟩
      exact ⟨kv', List.mem_cons_of_mem kv hmem, hval⟩

/-- Inserting a nonnegative value keeps the cache nonnegative. -/
theorem cacheInsert_nonneg (c : Cache) (k : Coords × Coords) (v : ℚ)
    (hc : cacheNonneg c) (hv : 0 ≤ v) : cacheNonneg (cacheInsert c k v) := by
  intro kv hkv
  rcases List.mem_cons.mp hkv with rfl | hkv'
  · exact hv
  · exact hc kv hkv'

/-- The resolver returns a nonnegative distance and keeps the cache
nonnegative, for a nonnegative oracle. -/
theorem getDistanceFromOSRM_nonneg (O : Oracle) (cache : Cache) (s e : Coords)
    (thr : ℚ) (hO : oracleNonneg O) (hc : cacheNonneg cache) :
    0 ≤ (getDistanceFromOSRM O cache s e thr).dist ∧
    cacheNonneg (getDistanceFromOSRM O cache s e thr).cache := by
  unfold getDistanceFromOSRM
  rcases hl : cacheLookup cache (s, e) with _ | v
  · simp only [hl]
    split_ifs with hfar
    · exact ⟨hO.1 s e, cacheInsert_nonneg _ _ _ hc (hO.1 s e)⟩
    · rcases hos : O.osrm s e with m | _ | _ <;> simp only [hos]
      · have hm : 0 ≤ m := hO.2 s e m hos
        exact ⟨by positivity, cacheInsert_nonneg _ _ _ hc (by positivity)⟩
      · exact ⟨hO.1 s e, cacheInsert_nonneg _ _ _ hc (hO.1 s e)⟩
      · exact ⟨hO.1 s e, cacheInsert_nonneg _ _ _ hc (hO.1 s e)⟩
  · simp only [hl]
    rcases cacheLookup_some_mem cache (s, e) v hl with ⟨kv, hmem, hval⟩
    exact ⟨hval ▸ hc kv hmem, hc⟩

/-- Same for the engine's inline resolution step. -/
theorem resolveEngineDistance_nonneg (O : Oracle) (cache : Cache) (a b : Coords)
    (hO : oracleNonneg O) (hc : cacheNonneg cache) :
    0 ≤ (resolveEngineDistance O cache a b).1 ∧
    cacheNonneg (resolveEngineDistance O cache a b).2.1 := by
  simp only [resolveEngineDistance]
  split_ifs with hnear
  · exact getDistanceFromOSRM_nonneg O cache a b 30 hO hc
  · exact ⟨hO.1 a b, hc⟩

/-- For a non-inverted ride, nonnegative fuel cost and a nonnegative oracle and
cache, every evaluated cost is nonnegative and the cache stays nonnegative. -/
theorem evalDriver_nonneg (O : Oracle) (r : Ride) (d : Driver) (av : Availability)
    (asg : Assignment) (cache : Cache) (hO : oracleNonneg O) (hc : cacheNonneg cache)
    (hfuel : 0 ≤ d.fuelCost) (hdur : r.startTime ≤ r.endTime) :
    (∀ c, (evalDriver O r d av asg cache).cost = some c → 0 ≤ c) ∧
    cacheNonneg (evalDriver O r d av asg cache).cache := by
  have hres1 := resolveEngineDistance_nonneg O cache av.lastRideEndPoint_coords
    r.startPoint_coords hO hc
  have hres2 := resolveEngineDistance_nonneg O
    (resolveEngineDistance O cache av.lastRideEndPoint_coords r.startPoint_coords).2.1
    r.startPoint_coords r.endPoint_coords hO hres1.2
  have hdq : (0 : ℚ) ≤ ((r.endTime - r.startTime : ℤ) : ℚ) := by
    have h0 : (0 : ℤ) ≤ r.endTime - r.startTime := by omega
    exact_mod_cast h0
  unfold evalDriver
  split_ifs with h1 h2 h3 h4 h5
  · exact ⟨(fun c hcsome => by cases hcsome), hc⟩
  · exact ⟨(fun c hcsome => by cases hcsome), hc⟩
  · exact ⟨(fun c hcsome => by cases hcsome), hc⟩
  · exact ⟨(fun c hcsome => by cases hcsome), hc⟩
  · exact ⟨(fun c hcsome => by cases hcsome), hc⟩
  · dsimp only
    split_ifs with h6
    · exact ⟨(fun c hcsome => by cases hcsome), hres1.2⟩
    · refine ⟨?_, hres2.2⟩
      intro c hcsome
      simp only [Option.some.injEq, getTimeDifferenceInMinutes] at hcsome
      have ht : (0 : ℚ) ≤ ((r.endTime - r.startTime : ℤ) : ℚ) / 60 * 30 := by positivity
      have hf1 : (0 : ℚ) ≤ (resolveEngineDistance O
          (resolveEngineDistance O cache av.lastRideEndPoint_coords
            r.startPoint_coords).2.1 r.startPoint_coords r.endPoint_coords).1
          * d.fuelCost := mul_nonneg hres2.1 hfuel
      have hf2 : (0 : ℚ) ≤ (resolveEngineDistance O cache
          av.lastRideEndPoint_coords r.startPoint_coords).1 * d.fuelCost :=
        mul_nonneg hres1.1 hfuel
      rw [← hcsome]
      linarith

/-- The inner loop only ever selects nonnegative costs, and keeps the cache
nonnegative, under the nonnegativity assumptions. -/
theorem chooseBest_nonneg (O : Oracle) (r : Ride) (avail : String → Availability)
    (assignments : List Assignment) (hO : oracleNonneg O)
    (hdur : r.startTime ≤ r.endTime) :
    ∀ (ds : List Driver), (∀ d ∈ ds, 0 ≤ d.fuelCost) →
    ∀ (best0 : Option (String × ℚ)) (cache : Cache) (saved : ℕ),
      (∀ p, best0 = some p → 0 ≤ p.2) → cacheNonneg cache →
      (∀ p, (chooseBest O r avail assignments ds best0 cache saved).best = some p →
        0 ≤ p.2) ∧
      cacheNonneg (chooseBest O r avail assignments ds best0 cache saved).cache := by
  intro ds
  induction ds with
  | nil =>
    intro _ best0 cache saved h0 hcache
    exact ⟨h0, hcache⟩
  | cons d ds ih =>
    intro hfuels best0 cache saved h0 hcache
    rw [chooseBest]
    have he := evalDriver_nonneg O r d (avail d.driverId)
      ((assignments.find? fun a => a.driverId == d.driverId).getD
        ⟨d.driverId, [], fun _ => 0⟩) cache hO hcache
      (hfuels d (List.mem_cons_self _ _)) hdur
    refine ih (fun x hx => hfuels x (List.mem_cons_of_mem d hx)) _ _ _ ?_ he.2
    intro p hp
    rcases updateBest_eq_some _ _ _ _ hp with hcase | ⟨c, hcsome, hpc⟩
    · exact h0 p hcase
    · subst hpc
      exact he.1 c hcsome

/-- The cache after one ride step is the cache after the inner loop. -/
theorem processRide_cache (O : Oracle) (drivers : List Driver) (st : EngineState)
    (r : Ride) :
    (processRide O drivers st r).cache
      = (chooseBest O r st.avail st.assignments drivers none st.cache
          st.apiCallsSaved).cache := by
  unfold processRide
  rcases hch : (chooseBest O r st.avail st.assignments drivers none st.cache
      st.apiCallsSaved).best with _ | p <;> simp only [hch]
  split_ifs <;> rfl

/-- Every committed cost is nonnegative, under the nonnegativity assumptions. -/
theorem committedCosts_nonneg (O : Oracle) (drivers : List Driver)
    (hO : oracleNonneg O) (hfuels : ∀ d ∈ drivers, 0 ≤ d.fuelCost) :
    ∀ (rs : List Ride) (st : EngineState), cacheNonneg st.cache →
      (∀ r ∈ rs, r.startTime ≤ r.endTime) →
      ∀ c ∈ committedCosts O drivers st rs, 0 ≤ c := by
  intro rs
  induction rs with
  | nil => intro st _ _ c hc; cases hc
  | cons r rs ih =>
    intro st hcache hdur c hc
    have hcb := chooseBest_nonneg O r st.avail st.assignments hO
      (hdur r (List.mem_cons_self _ _)) drivers hfuels none st.cache st.apiCallsSaved
      (by intro p hp; cases hp) hcache
    have hcache' : cacheNonneg (processRide O drivers st r).cache := by
      rw [processRide_cache]
      exact hcb.2
    have hdur' : ∀ x ∈ rs, x.startTime ≤ x.endTime :=
      fun x hx => hdur x (List.mem_cons_of_mem r hx)
    rw [committedCosts] at hc
    rcases hch : (chooseBest O r st.avail st.assignments drivers none st.cache
        st.apiCallsSaved).best with _ | p <;> simp only [hch] at hc
    · exact ih _ hcache' hdur' c hc
    · split_ifs at hc
      · exact ih _ hcache' hdur' c hc
      · rcases List.mem_cons.mp hc with rfl | hc'
        · exact hcb.1 p hch
        · exact ih _ hcache' hdur' c hc'

/-- Rounding to two decimals preserves nonnegativity. -/
theorem round2_nonneg (q : ℚ) (h : 0 ≤ q) : 0 ≤ round2 q := by
  unfold round2
  have hfl : (0 : ℤ) ≤ ⌊q * 100 + 1 / 2⌋ := by
    apply Int.floor_nonneg.mpr
    linarith
  apply div_nonneg _ (by norm_num)
  exact_mod_cast hfl

/-- C2 (amended): totalCost is the once-rounded sum of the per-assignment
committed costs; the driver committed for a ride is the first strict minimum of
the per-driver evaluation outcomes (the selected pair splits the evaluations
into a strictly-more-expensive prefix and is a weak minimum of the whole list);
totalCost is at least 0 provided no ride is inverted, fuel costs are
nonnegative and the distance oracle and the initial cache only produce
nonnegative values — the claim's unconditional `totalCost ≥ 0` fails for an
inverted ride, whose negative duration makes the committed cost negative. -/
theorem claim2_min_cost_and_total (O : Oracle) (cache0 : Cache)
    (drivers : List Driver) (ridesData : List Ride) :
    (assignDriversToRides O cache0 drivers ridesData).totalCost
      = round2 ((committedCosts O drivers (initState cache0 drivers)
          (sortRides ridesData)).sum) ∧
    (∀ (st : EngineState) (r : Ride),
      (chooseBest O r st.avail st.assignments drivers none st.cache
        st.apiCallsSaved).best
        = firstMin (evalList O r st.avail st.assignments drivers st.cache)) ∧
    (∀ (l : List (String × Option ℚ)) (p : String × ℚ), firstMin l = some p →
      (∀ e ∈ l, ∀ c, e.2 = some c → p.2 ≤ c) ∧
      ∃ l1 l2, l = l1 ++ (p.1, some p.2) :: l2 ∧
        ∀ e ∈ l1, ∀ c, e.2 = some c → p.2 < c) ∧
    ((∀ r ∈ ridesData, r.startTime ≤ r.endTime) → (∀ d ∈ drivers, 0 ≤ d.fuelCost) →
      oracleNonneg O → cacheNonneg cache0 →
      0 ≤ (assignDriversToRides O cache0 drivers ridesData).totalCost) := by
  have htot : (assignDriversToRides O cache0 drivers ridesData).totalCost
      = round2 ((committedCosts O drivers (initState cache0 drivers)
          (sortRides ridesData)).sum) := by
    show round2 (runRides O drivers (initState cache0 drivers)
        (sortRides ridesData)).totalCost = _
    rw [runRides_totalCost]
    norm_num [initState]
  refine ⟨htot, ?_, ?_, ?_⟩
  · intro st r
    rw [chooseBest_best_eq]
    rfl
  · intro l p hp
    rcases firstMin_charact l p hp with ⟨hmin, l1, l2, hsplit, hstrict⟩
    exact ⟨hmin, l1, l2, hsplit, hstrict⟩
  · intro hdur hfuels hO hcache
    rw [htot]
    apply round2_nonneg
    apply List.sum_nonneg
    intro c hc
    refine committedCosts_nonneg O drivers hO hfuels (sortRides ridesData)
      (initState cache0 drivers) ?_ ?_ c hc
    · exact hcache
    · intro x hx
      exact hdur x ((sortRides_perm ridesData).mem_iff.mp hx)

/-- Witness for C2's conditional part at a concrete input. -/
theorem claim2_witness :
    (∀ r ∈ [rideMorning], r.startTime ≤ r.endTime) ∧
    (∀ d ∈ [driverFuelOne], 0 ≤ d.fuelCost) ∧
    oracleNonneg oracleZero ∧
    cacheNonneg ([] : Cache) ∧
    0 ≤ (assignDriversToRides oracleZero [] [driverFuelOne] [rideMorning]).totalCost := by
  have h1 : ∀ r ∈ [rideMorning], r.startTime ≤ r.endTime := by
    norm_num [rideMorning]
  have h2 : ∀ d ∈ [driverFuelOne], (0 : ℚ) ≤ d.fuelCost := by
    norm_num [driverFuelOne]
  have h3 : oracleNonneg oracleZero := by
    constructor
    · intro a b
      norm_num [oracleZero]
    · intro a b m h
      simp [oracleZero] at h
  have h4 : cacheNonneg ([] : Cache) := by
    intro kv hkv
    cases hkv
  exact ⟨h1, h2, h3, h4,
    (claim2_min_cost_and_total oracleZero [] [driverFuelOne] [rideMorning]).2.2.2
      h1 h2 h3 h4⟩

/-- Counterexample to C2's `totalCost ≥ 0` as stated: assigning the inverted
ride yields totalCost −30. -/
theorem claim2_counterexample :
    (assignDriversToRides oracleZero [] [driverFuelOne] [rideInverted]).totalCost
      = -30 ∧
    ¬ 0 ≤ (assignDriversToRides oracleZero [] [driverFuelOne]
      [rideInverted]).totalCost := by
  have h : (assignDriversToRides oracleZero [] [driverFuelOne]
      [rideInverted]).totalCost = -30 := by
    norm_num [assignDriversToRides, sortRides, initState, initAvailMap,
      initialAvailability, runRides, processRide, commitAssign, commitAvail, chooseBest, updateBest, evalDriver,
      resolveEngineDistance, getDistanceFromOSRM, cacheLookup, cacheInsert,
      isTimeAfter, addMinutesToTime, getTimeDifferenceInMinutes, isDriverOnShift,
      isAddressBlocked, wouldExceedDailyHours, updateFirstAssign, round2,
      driverFuelOne, rideInverted, oracleZero]
    rw [if_neg (show ¬ ("d1" : String) = "" by decide)]
    norm_num
  rw [h]
  norm_num

/-! ### Claim C4: uniqueness, ordering, and non-overlap of assigned rides -/

/-- All accepted ride ids across all assignment entries, in order. -/
def flatIds : List Assignment → List String
  | [] => []
  | a :: rest => a.rideIds ++ flatIds rest

/-- All ride ids across the output entries, in order. -/
def flatOutIds : List OutAssign → List String
  | [] => []
  | a :: rest => a.rideIds ++ flatOutIds rest

/-- Two rides overlap when some instant lies strictly inside both. -/
def ridesOverlap (x y : Ride) : Prop :=
  max x.startTime y.startTime < min x.endTime y.endTime

/-- flatIds distributes over append. -/
theorem flatIds_append (l1 l2 : List Assignment) :
    flatIds (l1 ++ l2) = flatIds l1 ++ flatIds l2 := by
  induction l1 with
  | nil => rfl
  | cons a rest ih => rw [List.cons_append, flatIds, flatIds, ih, List.append_assoc]

/-- updateFirstAssign either finds no entry (and changes nothing) or rewrites
exactly the first matching entry. -/
theorem updateFirstAssign_decomp (asgs : List Assignment) (tgt : String)
    (f : Assignment → Assignment) :
    (updateFirstAssign asgs tgt f = asgs ∧ ∀ a ∈ asgs, a.driverId ≠ tgt) ∨
    ∃ pre e post, asgs = pre ++ e :: post ∧ (∀ a ∈ pre, a.driverId ≠ tgt) ∧
      e.driverId = tgt ∧ updateFirstAssign asgs tgt f = pre ++ f e :: post := by
  induction asgs with
  | nil => exact Or.inl ⟨rfl, (by intro a ha; cases ha)⟩
  | cons a rest ih =>
    by_cases ha : a.driverId = tgt
    · refine Or.inr ⟨[], a, rest, rfl, (by intro x hx; cases hx), ha, ?_⟩
      rw [updateFirstAssign, if_pos ha]
      rfl
    · rcases ih with ⟨heq, hall⟩ | ⟨pre, e, post, hsplit, hpre, he, hupd⟩
      · refine Or.inl ⟨?_, ?_⟩
        · rw [updateFirstAssign, if_neg ha, heq]
        · intro x hx
          rcases List.mem_cons.mp hx with rfl | hx'
          · exact ha
          · exact hall x hx'
      · refine Or.inr ⟨a :: pre, e, post, by rw [hsplit]; rfl, ?_, he, ?_⟩
        · intro x hx
          rcases List.mem_cons.mp hx with rfl | hx'
          · exact ha
          · exact hpre x hx'
        · rw [updateFirstAssign, if_neg ha, hupd]
          rfl

/-- A pairwise-sorted list whose consecutive elements never abut out of order
(each ride ends no later than the next accepted ride starts) has, for any two
of its members on the same date, the earlier one ending no later than the later
one starts. -/
theorem chain_sorted_gap (L : List Ride) (hs : List.Pairwise lexProp L)
    (hc : List.Chain' (fun x y => x.endTime ≤ y.startTime) L) :
    List.Pairwise (fun x y => x.date = y.date → x.endTime ≤ y.startTime) L := by
  induction L with
  | nil => exact List.Pairwise.nil
  | cons x rest ih =>
    have hs' := List.pairwise_cons.mp hs
    refine List.pairwise_cons.mpr ⟨?_, ih hs'.2 hc.tail⟩
    intro y hy hd
    cases rest with
    | nil => cases hy
    | cons z rest' =>
      have hxz : x.endTime ≤ z.startTime := (List.chain'_cons.mp hc).1
      rcases List.mem_cons.mp hy with rfl | hy'
      · exact hxz
      · have h1 : lexProp x z := hs'.1 z (List.mem_cons_self _ _)
        have h2 : lexProp z y := (List.pairwise_cons.mp hs'.2).1 y hy'
        have hzs : z.startTime ≤ y.startTime := by
          rcases h1 with h1 | ⟨h1d, h1s⟩ <;> rcases h2 with h2 | ⟨h2d, h2s⟩ <;> omega
        exact le_trans hxz hzs

/-- Invariant for one assignment entry: its accepted ride ids are those of an
ordered sublist of the processed prefix whose consecutive rides never start
before the previous one ended, and — whenever the entry is nonempty — the
driver's busyUntil is the last accepted ride's endTime. -/
def EntryInv (avail : String → Availability) (processed : List Ride)
    (a : Assignment) : Prop :=
  ∃ L : List Ride, L.map Ride.rid = a.rideIds ∧ L.Sublist processed ∧
    List.Chain' (fun x y => x.endTime ≤ y.startTime) L ∧
    ∀ z, L.getLast? = some z → (avail a.driverId).busyUntil = z.endTime

/-- Engine-state invariant maintained across the ride loop. -/
def StateInv (avail : String → Availability) (processed : List Ride)
    (asgs : List Assignment) : Prop :=
  (∀ a ∈ asgs, EntryInv avail processed a) ∧
  List.Pairwise (fun a b => a.driverId = b.driverId → b.rideIds = []) asgs ∧
  ∀ id, (flatIds asgs).count id ≤ (processed.map Ride.rid).count id

/-- The invariant holds initially. -/
theorem initState_stateInv (cache0 : Cache) (drivers : List Driver) :
    StateInv (initState cache0 drivers).avail [] (initState cache0 drivers).assignments := by
  refine ⟨?_, ?_, ?_⟩
  · intro a ha
    rcases List.mem_map.mp ha with ⟨d, -, hd⟩
    exact ⟨[], (by rw [← hd]; rfl), List.nil_sublist _, List.chain'_nil,
      (by intro z hz; cases hz)⟩
  · show List.Pairwise _ (drivers.map fun d => (⟨d.driverId, [], fun _ => 0⟩ : Assignment))
    rw [List.pairwise_map]
    exact List.pairwise_of_forall fun a b => fun _ => rfl
  · intro id
    show (flatIds (drivers.map fun d => (⟨d.driverId, [], fun _ => 0⟩ : Assignment))).count id ≤ _
    have hflat : ∀ ds : List Driver,
        flatIds (ds.map fun d => (⟨d.driverId, [], fun _ => 0⟩ : Assignment)) = [] := by
      intro ds
      induction ds with
      | nil => rfl
      | cons d ds ih => rw [List.map_cons, flatIds, ih]; rfl
    rw [hflat]
    simp

/-- One ride step preserves the engine-state invariant. -/
theorem processRide_stateInv (O : Oracle) (drivers : List Driver) (st : EngineState)
    (r : Ride) (processed : List Ride)
    (hinv : StateInv st.avail processed st.assignments) :
    StateInv (processRide O drivers st r).avail (processed ++ [r])
      (processRide O drivers st r).assignments := by
  obtain ⟨hentries, hpw, hcount⟩ := hinv
  have hextend : ∀ a, EntryInv st.avail processed a →
      EntryInv st.avail (processed ++ [r]) a := by
    intro a ⟨L, hmap, hsub, hchain, hlink⟩
    exact ⟨L, hmap, hsub.trans (List.sublist_append_left _ _), hchain, hlink⟩
  have hcount' : ∀ id, (flatIds st.assignments).count id
      ≤ ((processed ++ [r]).map Ride.rid).count id := by
    intro id
    rw [List.map_append, List.count_append]
    have h0 := hcount id
    omega
  unfold processRide
  rcases hch : (chooseBest O r st.avail st.assignments drivers none st.cache
      st.apiCallsSaved).best with _ | p
  · simp only [hch]
    exact ⟨fun a ha => hextend a (hentries a ha), hpw, hcount'⟩
  · simp only [hch]
    split_ifs with hempty
    · exact ⟨fun a ha => hextend a (hentries a ha), hpw, hcount'⟩
    · have hbusy : (st.avail p.1).busyUntil ≤ r.startTime :=
        chooseBest_busy_le O r st.avail st.assignments drivers none st.cache
          st.apiCallsSaved (by intro q hq; cases hq) p hch
      rcases updateFirstAssign_decomp st.assignments p.1 (commitAssign r) with
        ⟨heq, hnone⟩ | ⟨pre, e, post, hsplit, hpre, heid, hupd⟩
      · rw [heq]
        refine ⟨?_, hpw, hcount'⟩
        intro a ha
        obtain ⟨L, hmap, hsub, hchain, hlink⟩ := hentries a ha
        refine ⟨L, hmap, hsub.trans (List.sublist_append_left _ _), hchain, ?_⟩
        intro z hz
        show (if a.driverId = p.1 then commitAvail r else st.avail a.driverId).busyUntil
          = z.endTime
        rw [if_neg (hnone a ha)]
        exact hlink z hz
      · rw [hupd]
        rw [hsplit] at hentries hpw hcount
        obtain ⟨hpwpre, hpwrest, hpwcross⟩ := List.pairwise_append.mp hpw
        obtain ⟨hpwhead, hpwpost⟩ := List.pairwise_cons.mp hpwrest
        refine ⟨?_, ?_, ?_⟩
        · intro a ha
          rcases List.mem_append.mp ha with hapre | harest
          · have hne := hpre a hapre
            obtain ⟨L, hmap, hsub, hchain, hlink⟩ :=
              hentries a (List.mem_append_left _ hapre)
            refine ⟨L, hmap, hsub.trans (List.sublist_append_left _ _), hchain, ?_⟩
            intro z hz
            show (if a.driverId = p.1 then commitAvail r else st.avail a.driverId).busyUntil
              = z.endTime
            rw [if_neg hne]
            exact hlink z hz
          · rcases List.mem_cons.mp harest with haeq | hapost
            · subst haeq
              obtain ⟨L, hmap, hsub, hchain, hlink⟩ :=
                hentries e (List.mem_append_right _ (List.mem_cons_self _ _))
              refine ⟨L ++ [r], ?_, hsub.append (List.Sublist.refl [r]), ?_, ?_⟩
              · rw [List.map_append, hmap]
                rfl
              · rw [List.chain'_append]
                refine ⟨hchain, List.chain'_singleton r, ?_⟩
                intro x hx y hy
                simp only [List.head?_cons, Option.mem_def, Option.some.injEq] at hy
                subst hy
                have hlx : (st.avail e.driverId).busyUntil = x.endTime :=
                  hlink x (Option.mem_def.mp hx)
                rw [heid] at hlx
                omega
              · intro z hz
                rw [List.getLast?_concat] at hz
                have hz' : r = z := Option.some.inj hz
                subst hz'
                show (if (commitAssign r e).driverId = p.1 then commitAvail r
                  else st.avail (commitAssign r e).driverId).busyUntil = r.endTime
                have hcd : (commitAssign r e).driverId = p.1 := heid
                rw [if_pos hcd]
                rfl
            · by_cases hne : a.driverId = p.1
              · have hrid : a.rideIds = [] := by
                  apply hpwhead a hapost
                  rw [heid, hne]
                refine ⟨[], (by rw [hrid]; rfl), List.nil_sublist _, List.chain'_nil,
                  (by intro z hz; cases hz)⟩
              · obtain ⟨L, hmap, hsub, hchain, hlink⟩ := hentries a
                  (List.mem_append_right _ (List.mem_cons_of_mem e hapost))
                refine ⟨L, hmap, hsub.trans (List.sublist_append_left _ _), hchain, ?_⟩
                intro z hz
                show (if a.driverId = p.1 then commitAvail r
                  else st.avail a.driverId).busyUntil = z.endTime
                rw [if_neg hne]
                exact hlink z hz
        · rw [List.pairwise_append]
          refine ⟨hpwpre, ?_, ?_⟩
          · refine List.pairwise_cons.mpr ⟨?_, hpwpost⟩
            intro b hb hbid
            exact hpwhead b hb hbid
          · intro a hapre b hb
            rcases List.mem_cons.mp hb with rfl | hbpost
            · intro hbid
              have hap : a.driverId = p.1 := by
                have hde : (commitAssign r e).driverId = e.driverId := rfl
                rw [hde] at hbid
                rw [hbid, heid]
              exact absurd hap (hpre a hapre)
            · exact hpwcross a hapre b (List.mem_cons_of_mem e hbpost)
        · intro id
          have hold := hcount id
          rw [flatIds_append, flatIds] at hold ⊢
          simp only [commitAssign]
          rw [List.map_append]
          simp only [List.count_append, List.map_cons, List.map_nil] at hold ⊢
          omega

/-- The whole loop preserves the engine-state invariant. -/
theorem runRides_stateInv (O : Oracle) (drivers : List Driver) :
    ∀ (rs : List Ride) (st : EngineState) (processed : List Ride),
      StateInv st.avail processed st.assignments →
      StateInv (runRides O drivers st rs).avail (processed ++ rs)
        (runRides O drivers st rs).assignments := by
  intro rs
  induction rs with
  | nil =>
    intro st processed h
    simpa using h
  | cons r rs ih =>
    intro st processed h
    rw [runRides]
    have h3 := ih (processRide O drivers st r) (processed ++ [r])
      (processRide_stateInv O drivers st r processed h)
    simpa using h3

/-- Dropping empty entries and reshaping to the output form never increases a
ride id's number of occurrences. -/
theorem flatOutIds_filter_le (asgs : List Assignment) (q : Assignment → Bool)
    (id : String) :
    (flatOutIds ((asgs.filter q).map fun a => ⟨a.driverId, a.rideIds⟩)).count id
      ≤ (flatIds asgs).count id := by
  induction asgs with
  | nil => exact le_refl _
  | cons a rest ih =>
    rw [flatIds, List.count_append]
    by_cases hq : q a = true
    · rw [List.filter_cons, if_pos hq, List.map_cons, flatOutIds, List.count_append]
      dsimp only
      omega
    · rw [List.filter_cons, if_neg hq]
      omega

/-- C4: with distinct ride identities, every ride id appears at most once
across the whole output, and each driver's accepted rides are input rides in
non-decreasing (date, startTime) order that pairwise never overlap in time on
a common date. -/
theorem claim4_unique_sorted_nonoverlap (O : Oracle) (cache0 : Cache)
    (drivers : List Driver) (ridesData : List Ride)
    (hnodup : (ridesData.map Ride.rid).Nodup) :
    (∀ id, (flatOutIds
        (assignDriversToRides O cache0 drivers ridesData).assignments).count id ≤ 1) ∧
    ∀ a ∈ (assignDriversToRides O cache0 drivers ridesData).assignments,
      ∃ L : List Ride, L.map Ride.rid = a.rideIds ∧ (∀ x ∈ L, x ∈ ridesData) ∧
        L.Pairwise lexProp ∧
        L.Pairwise (fun x y => x.date = y.date → ¬ ridesOverlap x y) := by
  have hrun := runRides_stateInv O drivers (sortRides ridesData)
    (initState cache0 drivers) [] (initState_stateInv cache0 drivers)
  simp only [List.nil_append] at hrun
  obtain ⟨hentries, -, hcount⟩ := hrun
  constructor
  · intro id
    have h1 := flatOutIds_filter_le
      (runRides O drivers (initState cache0 drivers) (sortRides ridesData)).assignments
      (fun a => decide (0 < a.rideIds.length)) id
    have h2 := hcount id
    have h3 : ((sortRides ridesData).map Ride.rid).count id
        = (ridesData.map Ride.rid).count id :=
      ((sortRides_perm ridesData).map Ride.rid).count_eq id
    have h4 := List.nodup_iff_count_le_one.mp hnodup id
    calc (flatOutIds (assignDriversToRides O cache0 drivers
            ridesData).assignments).count id
        ≤ (flatIds (runRides O drivers (initState cache0 drivers)
            (sortRides ridesData)).assignments).count id := h1
      _ ≤ ((sortRides ridesData).map Ride.rid).count id := h2
      _ = (ridesData.map Ride.rid).count id := h3
      _ ≤ 1 := h4
  · intro a ha
    rcases List.mem_map.mp ha with ⟨b, hbf, hba⟩
    have hb := List.mem_of_mem_filter hbf
    obtain ⟨L, hmap, hsub, hchain, -⟩ := hentries b hb
    have hsorted : L.Pairwise lexProp :=
      List.Pairwise.sublist hsub (sortRides_pairwise ridesData)
    refine ⟨L, ?_, ?_, hsorted, ?_⟩
    · rw [hmap, ← hba]
    · intro x hx
      exact (sortRides_perm ridesData).mem_iff.mp (hsub.subset hx)
    · refine (chain_sorted_gap L hsorted hchain).imp ?_
      intro x y hxy hd
      have hgap := hxy hd
      unfold ridesOverlap
      omega

/-- Witness for C4 at a concrete input: one driver, one ride, distinct ids. -/
theorem claim4_witness :
    ([rideMorning].map Ride.rid).Nodup ∧
    ((∀ id, (flatOutIds (assignDriversToRides oracleZero [] [driverFuelOne]
        [rideMorning]).assignments).count id ≤ 1) ∧
     ∀ a ∈ (assignDriversToRides oracleZero [] [driverFuelOne]
        [rideMorning]).assignments,
       ∃ L : List Ride, L.map Ride.rid = a.rideIds ∧ (∀ x ∈ L, x ∈ [rideMorning]) ∧
         L.Pairwise lexProp ∧
         L.Pairwise (fun x y => x.date = y.date → ¬ ridesOverlap x y)) :=
  ⟨by simp [rideMorning],
   claim4_unique_sorted_nonoverlap oracleZero [] [driverFuelOne] [rideMorning]
     (by simp [rideMorning])⟩
